import Mathlib

/-!
Verification of the FlexFlag Python SDK evaluation pipeline and cache layer
(`flexflag/client.py`, `flexflag/cache.py`, `flexflag/types.py`) via a shallow
embedding.  Python strings are `List Char`, JSON-serializable Python values
(`FlagValue = Union[bool, str, int, float, dict, list, None]`) are the mutual
inductive `JVal`/`JArr`/`JObj` below (floats are modelled by the integer
numeric case; `None` is `JVal.null`), and `json.dumps(..., sort_keys=True)`
is `dumps` (recursive key-sorting followed by printing with the default
`", "`/`": "` separators; the ASCII/control-character escapes of `json.dumps`
beyond `\"` and `\\` are elided, which does not affect key collision
behaviour).  Async methods are modelled as state-passing functions;
a Python statement that may raise is modelled in `Except Unit`.
-/

namespace FlexFlag

/-- Python strings, as lists of characters. -/
abbrev Str := List Char

mutual

/-- JSON-serializable Python values: `None`, `bool`, numbers, `str`,
`list`, `dict`.  Python's `None` is `JVal.null`. -/
inductive JVal : Type where
  | null : JVal
  | bool : Bool → JVal
  | num : Int → JVal
  | str : Str → JVal
  | arr : JArr → JVal
  | obj : JObj → JVal
  deriving DecidableEq

inductive JArr : Type where
  | nil : JArr
  | cons : JVal → JArr → JArr
  deriving DecidableEq

inductive JObj : Type where
  | nil : JObj
  | cons : Str → JVal → JObj → JObj
  deriving DecidableEq

end

/-- A Python `FlagValue` (with `JVal.null` playing Python's `None`). -/
abbrev FlagValue := JVal

/-- The field list of a Python dict, in insertion order. -/
def JObj.toList : JObj → List (Str × JVal)
  | .nil => []
  | .cons k v tl => (k, v) :: tl.toList

/-- Rebuild a dict from a field list. -/
def JObj.ofList : List (Str × JVal) → JObj
  | [] => .nil
  | (k, v) :: tl => .cons k v (JObj.ofList tl)

/-- Dict lookup (`d.get(k)`), first match. -/
def JObj.lookup (k : Str) : JObj → Option JVal
  | .nil => none
  | .cons k' v tl => if k = k' then some v else tl.lookup k

/-- `sorted()` on dict items by key, as Python's `json.dumps(sort_keys=True)`
performs before printing an object. -/
def sortObj (o : JObj) : JObj :=
  JObj.ofList (List.insertionSort (fun p q => p.1 ≤ q.1) o.toList)

mutual

/- Recursively sort every object's keys: the reordering part of
`json.dumps(..., sort_keys=True)`. -/
def canonV : JVal → JVal
  | .null => .null
  | .bool b => .bool b
  | .num n => .num n
  | .str s => .str s
  | .arr a => .arr (canonA a)
  | .obj o => .obj (sortObj (canonO o))

def canonA : JArr → JArr
  | .nil => .nil
  | .cons v tl => .cons (canonV v) (canonA tl)

def canonO : JObj → JObj
  | .nil => .nil
  | .cons k v tl => .cons k (canonV v) (canonO tl)

end

/-- The decimal digit characters `'0'..'9'`. -/
def digitCh : Nat → Char
  | 0 => '0' | 1 => '1' | 2 => '2' | 3 => '3' | 4 => '4'
  | 5 => '5' | 6 => '6' | 7 => '7' | 8 => '8' | _ => '9'

/-- Decimal representation of a natural number, as `json.dumps` prints it. -/
def natChars (n : Nat) : Str :=
  if _h : n < 10 then [digitCh n]
  else natChars (n / 10) ++ [digitCh (n % 10)]
  decreasing_by exact Nat.div_lt_self (by omega) (by omega)

/-- Decimal representation of an integer. -/
def intChars (i : Int) : Str :=
  if i < 0 then '-' :: natChars i.natAbs else natChars i.natAbs

/-- JSON string escaping of one character (`\"` and `\\`; other escapes of
`json.dumps` do not affect injectivity and are elided). -/
def escChar (c : Char) : Str :=
  if c = '"' then ['\\', '"'] else if c = '\\' then ['\\', '\\'] else [c]

/-- JSON string escaping. -/
def escChars : Str → Str
  | [] => []
  | c :: tl => escChar c ++ escChars tl

/-- A JSON string literal: `"` + escaped content + `"`. -/
def serStr (s : Str) : Str := '"' :: escChars s ++ ['"']

/-- The `{` character. -/
def lbrace : Char := Char.ofNat 123

/-- The `}` character. -/
def rbrace : Char := Char.ofNat 125

mutual

/-- Print a JSON value with `json.dumps`'s default separators
(`", "` between items, `": "` after keys). -/
def serV : JVal → Str
  | .null => ['n', 'u', 'l', 'l']
  | .num n => intChars n
  | .bool true => ['t', 'r', 'u', 'e']
  | .str s => serStr s
  | .bool false => ['f', 'a', 'l', 's', 'e']
  | .arr a => '[' :: serItems a ++ [']']
  | .obj o => lbrace :: serFields o ++ [rbrace]

def serItems : JArr → Str
  | .nil => []
  | .cons v .nil => serV v
  | .cons v (.cons w tl) => serV v ++ ',' :: ' ' :: serItems (.cons w tl)

def serFields : JObj → Str
  | .nil => []
  | .cons k v .nil => serStr k ++ ':' :: ' ' :: serV v
  | .cons k v (.cons k' w tl) =>
      serStr k ++ ':' :: ' ' :: serV v ++ ',' :: ' ' :: serFields (.cons k' w tl)

end

/-- `json.dumps(v, sort_keys=True)`. -/
def dumps (v : JVal) : Str := serV (canonV v)

/-- Python truthiness of a `FlagValue` (used by `data.get("matched")`). -/
def jTruthy : JVal → Bool
  | .null => false
  | .bool b => b
  | .num n => n ≠ 0
  | .str s => s ≠ []
  | .arr a => a ≠ .nil
  | .obj o => o ≠ .nil

/-- `types.EvaluationContext`: `user_id`, `attributes`, optional `device`
and `session` dicts. -/
structure EvaluationContext where
  user_id : Option Str
  attributes : JObj
  device : Option JObj
  session : Option JObj
  deriving DecidableEq

/-- `types.EvaluationReason`. -/
inductive EvaluationReason where
  | TARGETING_MATCH | DEFAULT | DISABLED | CACHED | OFFLINE | ERROR
  deriving DecidableEq

/-- The parts of `types.EvaluationMetadata` that do not involve wall-clock
time (`timestamp`/`evaluation_time_ms` are elided). -/
structure EvaluationMetadata where
  cache_hit : Bool
  source : Str
  request_id : Option JVal
  deriving DecidableEq

/-- `types.EvaluationResult` (the `variation` field uses `JVal.null` for
Python's `None`, matching `data.get("variation")`). -/
structure EvaluationResult where
  value : FlagValue
  variation : JVal := .null
  reason : EvaluationReason := .DEFAULT
  metadata : Option EvaluationMetadata := none
  deriving DecidableEq

/-- `types.ConnectionMode`. -/
inductive ConnectionMode where
  | streaming | polling | offline
  deriving DecidableEq

/-- `types.ConnectionConfig` (fields used by the evaluation pipeline). -/
structure ConnectionConfig where
  mode : ConnectionMode := .streaming
  retry_attempts : Nat := 3
  retry_delay : Nat := 1
  exponential_backoff : Bool := true
  deriving DecidableEq

/-- `types.OfflineConfig`. -/
structure OfflineConfig where
  enabled : Bool := true
  default_flags : List (Str × FlagValue) := []
  deriving DecidableEq

/-- `types.CacheConfig` (fields used by the pipeline and the memory cache;
`key_prefix` is written `key_pfx` here). -/
structure CacheConfig where
  enabled : Bool := true
  key_pfx : Str := "flexflag:".data
  deriving DecidableEq

/-- `types.FlexFlagConfig` (fields used by the evaluation pipeline). -/
structure FlexFlagConfig where
  environment : Str := "production".data
  cache : CacheConfig := {}
  connection : ConnectionConfig := {}
  offline : OfflineConfig := {}

/-- `types.SDKMetrics`.  Latencies are rationals (exact stand-ins for the
Python floats). -/
structure SDKMetrics where
  evaluations : Nat := 0
  cache_hits : Nat := 0
  cache_misses : Nat := 0
  errors : Nat := 0
  network_requests : Nat := 0
  average_latency_ms : ℚ := 0
  deriving DecidableEq

/-- The event-handler invocations a call makes (`on_cache_hit` etc.; a
handler that is unset in Python is a no-op, so the pipeline is modelled as
always recording the firing point). -/
inductive SDKEvent where
  | cacheHit (flag_key : Str)
  | cacheMiss (flag_key : Str)
  | evaluation (flag_key : Str) (value : FlagValue)
  | error
  deriving DecidableEq

/-- First-match lookup in an association list (`dict.get`). -/
def flagLookup (k : Str) : List (Str × FlagValue) → Option FlagValue
  | [] => none
  | (k', v) :: tl => if k = k' then some v else flagLookup k tl

/-- Python dict assignment `d[k] = v`: replace in place, else append. -/
def dictInsert (k : Str) (v : FlagValue) : List (Str × FlagValue) → List (Str × FlagValue)
  | [] => [(k, v)]
  | (k', v') :: tl => if k = k' then (k, v) :: tl else (k', v') :: dictInsert k v tl

/-- Python `d.update(other)`: insert `other`'s pairs left to right. -/
def dictUpdate (d other : List (Str × FlagValue)) : List (Str × FlagValue) :=
  other.foldl (fun acc p => dictInsert p.1 p.2 acc) d

/-- An abstract async cache backend, as the client sees one: `get`/`set`
transform a backend state of type `σ` and may raise (`Except.error`).
A `get` that completes returns a `FlagValue` where `JVal.null` is Python's
`None` (for every shipped backend a stored `None` and a missing key are
indistinguishable in `get`'s return value). -/
structure CacheProviderM (σ : Type) where
  get : σ → Str → Except Unit FlagValue × σ
  set : σ → Str → FlagValue → Except Unit Unit × σ

/-- The mutable client fields touched by evaluation:
`self.metrics`, the cache backend's state, `self._offline_mode`,
and `self.context`. -/
structure ClientState (σ : Type) where
  metrics : SDKMetrics
  cacheState : σ
  offline_mode : Bool := false
  context : Option EvaluationContext := none

/-- `FlexFlagClient._context_to_dict`: `None` becomes `{}`; otherwise the
four-key dict (`attributes/device/session` fall back to `{}` via `or {}`,
which is the identity on our non-optional `attributes`). -/
def contextToDict : Option EvaluationContext → JObj
  | none => .nil
  | some c =>
      .cons "userId".data (match c.user_id with | none => .null | some s => .str s)
        (.cons "attributes".data (.obj c.attributes)
          (.cons "device".data (.obj (c.device.getD .nil))
            (.cons "session".data (.obj (c.session.getD .nil)) .nil)))

/-- `FlexFlagClient._build_cache_key`:
`f"{flag_key}::{json.dumps(self._context_to_dict(context), sort_keys=True)}::{environment}"`,
or `f"{flag_key}::{environment}"` when the context is `None`. -/
def buildCacheKey (flag_key : Str) (context : Option EvaluationContext)
    (environment : Str) : Str :=
  match context with
  | none => flag_key ++ "::".data ++ environment
  | some c =>
      flag_key ++ "::".data ++ dumps (.obj (contextToDict (some c))) ++
        "::".data ++ environment

/-- `FlexFlagClient._get_from_cache`: `None` when the cache is disabled;
any raised backend error is caught and turned into `None` (a miss). -/
def getFromCache {σ} (cfg : FlexFlagConfig) (cp : CacheProviderM σ)
    (s : σ) (key : Str) : FlagValue × σ :=
  if cfg.cache.enabled then
    match cp.get s key with
    | (.ok v, s') => (v, s')
    | (.error _, s') => (.null, s')
  else (.null, s)

/-- `FlexFlagClient._set_cache`: no-op when disabled; raised backend
errors are caught and ignored. -/
def setCache {σ} (cfg : FlexFlagConfig) (cp : CacheProviderM σ)
    (s : σ) (key : Str) (value : FlagValue) : σ :=
  if cfg.cache.enabled then
    match cp.set s key value with
    | (_, s') => s'
  else s

/-- One network attempt's outcome as seen by `_evaluate_remote`: an HTTP
response with a status and JSON body, or a raised transport error. -/
inductive NetResp where
  | resp (status : Nat) (body : JObj)
  | exn

/-- `FlexFlagClient._update_average_latency`. -/
def updateAverageLatency (m : SDKMetrics) (latency_ms : ℚ) : SDKMetrics :=
  if m.evaluations = 0 then { m with average_latency_ms := latency_ms }
  else
    { m with
      average_latency_ms :=
        (m.average_latency_ms * (m.evaluations : ℚ) + latency_ms) /
          ((m.evaluations : ℚ) + 1) }

/-- `FlexFlagClient._evaluate_offline`: the statically configured default
for the key, else the caller's default value. -/
def evaluateOffline (cfg : FlexFlagConfig) (flag_key : Str)
    (default_value : FlagValue) : EvaluationResult :=
  { value := (flagLookup flag_key cfg.offline.default_flags).getD default_value
    reason := .OFFLINE
    metadata := some { cache_hit := false, source := "offline".data, request_id := none } }

/-- Build the success `EvaluationResult` from a 200 response body
(`data.get("value", default_value)` etc.). -/
def remoteResultOf (body : JObj) (default_value : FlagValue) : EvaluationResult :=
  { value := (body.lookup "value".data).getD default_value
    variation := (body.lookup "variation".data).getD .null
    reason :=
      if jTruthy ((body.lookup "matched".data).getD .null) then .TARGETING_MATCH
      else .DEFAULT
    metadata := some
      { cache_hit := false, source := "remote".data
        request_id := body.lookup "requestId".data } }

/-- The body of one iteration of `_evaluate_remote`'s loop: a 200 response
builds the success result, a 404 short-circuits to a `DEFAULT`-reason
result, and any other status (or a transport error) raises. -/
def attemptOutcome (net : Nat → NetResp) (default_value : FlagValue)
    (attempt : Nat) : Except Unit EvaluationResult :=
  match net attempt with
  | .resp status body =>
      if status = 200 then .ok (remoteResultOf body default_value)
      else if status = 404 then .ok { value := default_value, reason := .DEFAULT }
      else .error ()
  | .exn => .error ()

/-- The retry loop of `FlexFlagClient._evaluate_remote`
(`for attempt in range(retry_attempts)`), driven by the per-attempt
responses `net`.  Returns the outcome (a result, or the exception that
escaped the loop), the number of request attempts performed, and the list
of sleep durations (`retry_delay * 2**attempt` under exponential backoff,
else `retry_delay`; the final failed attempt re-raises without sleeping). -/
def remoteLoop (conn : ConnectionConfig) (net : Nat → NetResp)
    (default_value : FlagValue) :
    Nat → Nat → Except Unit EvaluationResult × Nat × List Nat
  | _, 0 => (.error (), 0, [])
  | attempt, fuel + 1 =>
      match attemptOutcome net default_value attempt with
      | .ok r => (.ok r, 1, [])
      | .error _ =>
          if fuel = 0 then (.error (), 1, [])
          else
            let d := if conn.exponential_backoff then
                conn.retry_delay * 2 ^ attempt
              else conn.retry_delay
            let rec_ := remoteLoop conn net default_value (attempt + 1) fuel
            (rec_.1, rec_.2.1 + 1, d :: rec_.2.2)

/-- `FlexFlagClient._evaluate_remote`: one `network_requests` increment,
then the retry loop over `retry_attempts` attempts. -/
def evaluateRemote (conn : ConnectionConfig) (net : Nat → NetResp)
    (default_value : FlagValue) :
    Except Unit EvaluationResult × Nat × List Nat :=
  remoteLoop conn net default_value 0 conn.retry_attempts

/-- `FlexFlagClient.evaluate_with_details`, driven by the cache backend
`cp`, the per-attempt network responses `net`, and this call's measured
latency sample.  Returns the result, the new client state, and the events
fired.  The source's `try` block is the non-`CACHED`/non-offline path whose
only un-caught raiser is `_evaluate_remote`; its `except` clause is the
`.error` branch below. -/
def evaluateWithDetails {σ} (cfg : FlexFlagConfig) (cp : CacheProviderM σ)
    (net : Nat → NetResp) (latency_ms : ℚ) (st : ClientState σ)
    (flag_key : Str) (context : Option EvaluationContext)
    (default_value : FlagValue) :
    EvaluationResult × ClientState σ × List SDKEvent :=
  let evaluation_context := context <|> st.context
  let cache_key := buildCacheKey flag_key evaluation_context cfg.environment
  let gotten := getFromCache cfg cp st.cacheState cache_key
  if gotten.1 ≠ .null then
    -- cache hit
    let m := updateAverageLatency
      { st.metrics with
        evaluations := st.metrics.evaluations + 1
        cache_hits := st.metrics.cache_hits + 1 } latency_ms
    ({ value := gotten.1, reason := .CACHED
       metadata := some { cache_hit := true, source := "cache".data, request_id := none } },
     { st with metrics := m, cacheState := gotten.2 },
     [.cacheHit flag_key])
  else
    let m1 := { st.metrics with cache_misses := st.metrics.cache_misses + 1 }
    if st.offline_mode ∨ cfg.connection.mode = .offline then
      (evaluateOffline cfg flag_key default_value,
       { st with metrics := m1, cacheState := gotten.2 },
       [.cacheMiss flag_key])
    else
      let m2 := { m1 with network_requests := m1.network_requests + 1 }
      match evaluateRemote cfg.connection net default_value with
      | (.ok r, _, _) =>
          let s2 := setCache cfg cp gotten.2 cache_key r.value
          let m3 := updateAverageLatency
            { m2 with evaluations := m2.evaluations + 1 } latency_ms
          (r, { st with metrics := m3, cacheState := s2 },
           [.cacheMiss flag_key, .evaluation flag_key r.value])
      | (.error _, _, _) =>
          (evaluateOffline cfg flag_key default_value,
           { st with metrics := { m2 with errors := m2.errors + 1 },
                     cacheState := gotten.2 },
           [.cacheMiss flag_key, .error])

/-- Phase 1 of `FlexFlagClient.evaluate_batch`: partition `flag_keys` into
cache hits and misses, updating `cache_hits`/`cache_misses` per key and
firing the per-key events. -/
def batchPartition {σ} (cfg : FlexFlagConfig) (cp : CacheProviderM σ)
    (evaluation_context : Option EvaluationContext) :
    List Str → σ → SDKMetrics →
    List (Str × FlagValue) × List Str × σ × SDKMetrics × List SDKEvent
  | [], s, m => ([], [], s, m, [])
  | flag_key :: tl, s, m =>
      let cache_key := buildCacheKey flag_key evaluation_context cfg.environment
      let gotten := getFromCache cfg cp s cache_key
      if gotten.1 ≠ .null then
        let res := batchPartition cfg cp evaluation_context tl gotten.2
          { m with cache_hits := m.cache_hits + 1 }
        ((flag_key, gotten.1) :: res.1, res.2.1, res.2.2.1, res.2.2.2.1,
         .cacheHit flag_key :: res.2.2.2.2)
      else
        let res := batchPartition cfg cp evaluation_context tl gotten.2
          { m with cache_misses := m.cache_misses + 1 }
        (res.1, flag_key :: res.2.1, res.2.2.1, res.2.2.2.1,
         .cacheMiss flag_key :: res.2.2.2.2)

/-- Write the remote batch results back to the cache in order
(`for flag_key, value in remote_results.items()`), firing `on_evaluation`
for each. -/
def batchWriteBack {σ} (cfg : FlexFlagConfig) (cp : CacheProviderM σ)
    (evaluation_context : Option EvaluationContext) :
    List (Str × FlagValue) → σ → σ × List SDKEvent
  | [], s => (s, [])
  | (flag_key, v) :: tl, s =>
      let cache_key := buildCacheKey flag_key evaluation_context cfg.environment
      let s1 := setCache cfg cp s cache_key v
      let res := batchWriteBack cfg cp evaluation_context tl s1
      (res.1, .evaluation flag_key v :: res.2)

/-- Fill the missed keys from `offline.default_flags`
(`if offline_value is not None: results[flag_key] = offline_value`). -/
def fillOfflineDefaults (cfg : FlexFlagConfig) :
    List Str → List (Str × FlagValue) → List (Str × FlagValue)
  | [], results => results
  | flag_key :: tl, results =>
      let offline_value := (flagLookup flag_key cfg.offline.default_flags).getD .null
      if offline_value ≠ .null then
        fillOfflineDefaults cfg tl (dictInsert flag_key offline_value results)
      else fillOfflineDefaults cfg tl results

/-- `FlexFlagClient.evaluate_batch`, with the single remote batch call's
outcome given by `bnet` (the `flags` object of a 200 response, or the
exception raised for a transport error / non-200 status).  The
`network_requests` increment of `_evaluate_batch_remote` happens before
the response is examined. -/
def evaluateBatch {σ} (cfg : FlexFlagConfig) (cp : CacheProviderM σ)
    (bnet : Except Unit (List (Str × FlagValue))) (st : ClientState σ)
    (flag_keys : List Str) (context : Option EvaluationContext) :
    List (Str × FlagValue) × ClientState σ × List SDKEvent :=
  let evaluation_context := context <|> st.context
  let part := batchPartition cfg cp evaluation_context flag_keys st.cacheState st.metrics
  let cache_hits := part.1
  let cache_misses := part.2.1
  let s1 := part.2.2.1
  let m1 := part.2.2.2.1
  let events1 := part.2.2.2.2
  let results := dictUpdate [] cache_hits
  let afterNet :
      List (Str × FlagValue) × σ × SDKMetrics × List SDKEvent :=
    if cache_misses ≠ [] ∧ ¬st.offline_mode ∧ cfg.connection.mode ≠ .offline then
      let m2 := { m1 with network_requests := m1.network_requests + 1 }
      match bnet with
      | .ok remote_results =>
          let wb := batchWriteBack cfg cp evaluation_context remote_results s1
          (dictUpdate results remote_results, wb.1, m2, events1 ++ wb.2)
      | .error _ =>
          (fillOfflineDefaults cfg cache_misses results, s1,
           { m2 with errors := m2.errors + 1 }, events1 ++ [.error])
    else (results, s1, m1, events1)
  let afterOffline :=
    if st.offline_mode ∨ cfg.connection.mode = .offline then
      fillOfflineDefaults cfg cache_misses afterNet.1
    else afterNet.1
  let mfinal := { afterNet.2.2.1 with
    evaluations := afterNet.2.2.1.evaluations + flag_keys.length }
  (afterOffline,
   { st with metrics := mfinal, cacheState := afterNet.2.1 },
   afterNet.2.2.2)

/-- `cache.MemoryCache` over explicit association-list contents: `get`
returns the stored value or `None`, `set` assigns (the TTL/maxsize
behaviour of the wrapped `TTLCache` involves wall-clock time and is not
modelled; no operation of this backend raises). -/
def memoryCacheProvider (key_pfx : Str) : CacheProviderM (List (Str × FlagValue)) :=
  { get := fun s k => (.ok ((flagLookup (key_pfx ++ k) s).getD .null), s)
    set := fun s k v => (.ok (), dictInsert (key_pfx ++ k) v s) }

/-- The state of a `cache.DiskCache`: the SQLite rows
`(key, value, expires_at)` plus whether `self._lock` (a non-reentrant
`asyncio.Lock`) is currently held.  Expiry stamps are integers. -/
structure DiskState where
  locked : Bool := false
  rows : List (Str × FlagValue × Int) := []
  deriving DecidableEq

/-- `SELECT value, expires_at FROM cache WHERE key = ?`. -/
def rowLookup (k : Str) : List (Str × FlagValue × Int) → Option (FlagValue × Int)
  | [] => none
  | (k', r) :: tl => if k = k' then some r else rowLookup k tl

/-- `cache.DiskCache.delete`, run as a single-task await: acquiring the
already-held `self._lock` never completes (`none`); otherwise the row is
deleted and the lock released. -/
def diskDelete (key_pfx : Str) (st : DiskState) (key : Str) : Option DiskState :=
  if st.locked then none
  else some { locked := false,
              rows := st.rows.filter (fun r => decide (r.1 ≠ key_pfx ++ key)) }

/-- `cache.DiskCache.get` at time `now`, run as a single-task await.
`none` means the call never completes, `some (v, st')` a completed call
returning `v` (`JVal.null` for an absent entry).  The method holds
`self._lock` for its whole body; an expired row makes it call
`await self.delete(key)`, which re-acquires that same lock. -/
def diskGet (key_pfx : Str) (now : Int) (st : DiskState) (key : Str) :
    Option (FlagValue × DiskState) :=
  if st.locked then none
  else
    let held : DiskState := { st with locked := true }
    match rowLookup (key_pfx ++ key) held.rows with
    | none => some (.null, { held with locked := false })
    | some (v, expires_at) =>
        if expires_at < now then
          match diskDelete key_pfx held key with
          | none => none
          | some st' => some (.null, { st' with locked := false })
        else some (v, { held with locked := false })

/-- What `DiskCache.get` was evidently intended to do on an expired row
(delete it and report absent), i.e. its behaviour with the reentrant
`delete` body inlined under the already-held lock. -/
def diskGetIntended (key_pfx : Str) (now : Int) (st : DiskState) (key : Str) :
    FlagValue × DiskState :=
  match rowLookup (key_pfx ++ key) st.rows with
  | none => (.null, st)
  | some (v, expires_at) =>
      if expires_at < now then
        (.null, { st with
          rows := st.rows.filter (fun r => decide (r.1 ≠ key_pfx ++ key)) })
      else (v, st)

/-- One tier of a `cache.TieredCache`: association-list contents plus
fault switches saying whether this backend's `get`/`set` raise. -/
structure Tier where
  store : List (Str × FlagValue) := []
  getFails : Bool := false
  setFails : Bool := false
  deriving DecidableEq

/-- `await cache.get(key)` on one tier. -/
def tierGet (t : Tier) (k : Str) : Except Unit FlagValue :=
  if t.getFails then .error ()
  else .ok ((flagLookup k t.store).getD .null)

/-- `await cache.set(key, value)` on one tier. -/
def tierSet (t : Tier) (k : Str) (v : FlagValue) : Except Unit Tier :=
  if t.setFails then .error () else .ok { t with store := dictInsert k v t.store }

/-- The probe loop of `cache.TieredCache.get`
(`for i, cache in enumerate(self.caches)`): index and value of the first
tier whose `get` returns a non-`None` value, `none` if all miss; a raised
`get` propagates. -/
def findHit (k : Str) : List Tier → Except Unit (Option (Nat × FlagValue))
  | [] => .ok none
  | t :: tl =>
      match tierGet t k with
      | .error _ => .error ()
      | .ok v =>
          if v ≠ .null then .ok (some (0, v))
          else
            match findHit k tl with
            | .error _ => .error ()
            | .ok none => .ok none
            | .ok (some (i, w)) => .ok (some (i + 1, w))

/-- The backfill loop `for j in range(i): await self.caches[j].set(key, value)`:
sets tiers `0..i-1` in ascending order; a raised `set` propagates
immediately (it is not wrapped in `try`). -/
def backfillTiers (k : Str) (v : FlagValue) : Nat → List Tier → Except Unit (List Tier)
  | 0, ts => .ok ts
  | _ + 1, [] => .ok []
  | i + 1, t :: tl =>
      match tierSet t k v with
      | .error _ => .error ()
      | .ok t' =>
          match backfillTiers k v i tl with
          | .error _ => .error ()
          | .ok tl' => .ok (t' :: tl')

/-- `cache.TieredCache.get`: probe tiers in order; on a hit at tier `i`,
backfill tiers `0..i-1` and return the value; `JVal.null` when every tier
misses.  `Except.error` is a raised error escaping the method. -/
def tieredGet (tiers : List Tier) (k : Str) : Except Unit (FlagValue × List Tier) :=
  match findHit k tiers with
  | .error _ => .error ()
  | .ok none => .ok (.null, tiers)
  | .ok (some (i, v)) =>
      match backfillTiers k v i tiers with
      | .error _ => .error ()
      | .ok tiers' => .ok (v, tiers')

/-- A network attempt whose outcome makes `_evaluate_remote`'s loop body
raise: a transport error, or any status other than 200 and 404. -/
def netAttemptFails : NetResp → Prop
  | .resp status _ => status ≠ 200 ∧ status ≠ 404
  | .exn => True

lemma attemptOutcome_fail {net : Nat → NetResp} {default_value : FlagValue}
    {attempt : Nat} (h : netAttemptFails (net attempt)) :
    attemptOutcome net default_value attempt = .error () := by
  rw [attemptOutcome]
  cases hne : net attempt with
  | exn => rfl
  | resp status body =>
      rw [hne] at h
      simp [h.1, h.2]

lemma remoteLoop_allFail (conn : ConnectionConfig) (net : Nat → NetResp)
    (default_value : FlagValue) (hf : ∀ n, netAttemptFails (net n)) :
    ∀ fuel attempt, 1 ≤ fuel →
      remoteLoop conn net default_value attempt fuel =
        (.error (), fuel,
         (List.range (fuel - 1)).map
           (fun j => if conn.exponential_backoff then conn.retry_delay * 2 ^ (attempt + j)
                     else conn.retry_delay)) := by
  intro fuel
  induction fuel with
  | zero => omega
  | succ f ih =>
      intro attempt _
      rw [remoteLoop, attemptOutcome_fail (hf attempt)]
      by_cases hf0 : f = 0
      · subst hf0; simp
      · have hrec := ih (attempt + 1) (by omega)
        simp only [if_neg hf0, hrec, Nat.succ_sub_one]
        have hrng : List.range f = 0 :: (List.range (f - 1)).map Nat.succ := by
          conv_lhs => rw [show f = (f - 1) + 1 by omega]
          exact List.range_succ_eq_map _
        rw [hrng]
        simp only [List.map_cons, List.map_map, Nat.add_zero]
        have hmap : (List.range (f - 1)).map
            (fun j => if conn.exponential_backoff then conn.retry_delay * 2 ^ (attempt + 1 + j)
                      else conn.retry_delay) =
            (List.range (f - 1)).map
              ((fun j => if conn.exponential_backoff then conn.retry_delay * 2 ^ (attempt + j)
                         else conn.retry_delay) ∘ Nat.succ) := by
          apply List.map_congr_left
          intro j _
          have hj : attempt + 1 + j = attempt + Nat.succ j := by omega
          simp [Function.comp, hj]
        rw [hmap]

lemma remoteLoop_allFail_error (conn : ConnectionConfig) (net : Nat → NetResp)
    (default_value : FlagValue) (hf : ∀ n, netAttemptFails (net n)) :
    ∀ fuel attempt, (remoteLoop conn net default_value attempt fuel).1 = .error () := by
  intro fuel attempt
  cases fuel with
  | zero => rfl
  | succ f => rw [remoteLoop_allFail conn net default_value hf (f + 1) attempt (by omega)]

/-- On a cache miss, when every network attempt fails, a single evaluation
returns the offline result (the source's `except` clause and offline-mode
branch both end in `_evaluate_offline`). -/
lemma evaluateWithDetails_offline_fallback {σ : Type} (cfg : FlexFlagConfig)
    (cp : CacheProviderM σ) (net : Nat → NetResp) (latency_ms : ℚ)
    (st : ClientState σ) (flag_key : Str) (context : Option EvaluationContext)
    (default_value : FlagValue)
    (hmiss : (getFromCache cfg cp st.cacheState
      (buildCacheKey flag_key (context <|> st.context) cfg.environment)).1 = .null)
    (hf : ∀ n, netAttemptFails (net n)) :
    (evaluateWithDetails cfg cp net latency_ms st flag_key context default_value).1 =
      evaluateOffline cfg flag_key default_value := by
  rw [evaluateWithDetails]
  simp only [hmiss, ne_eq, not_true_eq_false, if_false]
  by_cases hoff : st.offline_mode ∨ cfg.connection.mode = .offline
  · simp [hoff]
  · simp only [if_neg hoff]
    have herr := remoteLoop_allFail_error cfg.connection net default_value
      hf cfg.connection.retry_attempts 0
    rw [evaluateRemote]
    rcases hrp : remoteLoop cfg.connection net default_value 0 cfg.connection.retry_attempts
      with ⟨res, a, sl⟩
    rw [hrp] at herr
    simp at herr
    rw [herr]

/-- C1.  A single evaluation always returns an `EvaluationResult` — for
every behaviour of the cache backend (`get`/`set` may raise arbitrarily)
and of the network — and when the cache lookup yields no value and every
network attempt fails, the call degrades to the offline result built from
the configured default flags (or the caller's default value), with reason
`OFFLINE`. -/
theorem c1_never_raises_degrades_offline :
    ∀ (σ : Type) (cfg : FlexFlagConfig) (cp : CacheProviderM σ)
      (net : Nat → NetResp) (latency_ms : ℚ) (st : ClientState σ)
      (flag_key : Str) (context : Option EvaluationContext)
      (default_value : FlagValue),
    (∃ r st' ev,
      evaluateWithDetails cfg cp net latency_ms st flag_key context default_value =
        (r, st', ev)) ∧
    ((getFromCache cfg cp st.cacheState
        (buildCacheKey flag_key (context <|> st.context) cfg.environment)).1 = .null →
     (∀ n, netAttemptFails (net n)) →
     (evaluateWithDetails cfg cp net latency_ms st flag_key context default_value).1 =
        evaluateOffline cfg flag_key default_value ∧
     (evaluateWithDetails cfg cp net latency_ms st flag_key context default_value).1.reason =
        .OFFLINE) := by
  intro σ cfg cp net latency_ms st flag_key context default_value
  refine ⟨⟨_, _, _, rfl⟩, fun hmiss hf => ?_⟩
  have h := evaluateWithDetails_offline_fallback cfg cp net latency_ms st
    flag_key context default_value hmiss hf
  exact ⟨h, by rw [h]; rfl⟩

/-- A cache backend whose `get` and `set` always raise. -/
def brokenCache : CacheProviderM Unit :=
  { get := fun s _ => (.error (), s), set := fun s _ _ => (.error (), s) }

/-- Witness for C1: a concrete client with an always-raising cache backend
and an always-failing network returns exactly the offline result. -/
theorem c1_witness :
    (getFromCache {} brokenCache ()
        (buildCacheKey "x".data (none <|> none) ({} : FlexFlagConfig).environment)).1
      = .null ∧
    (∀ _n : Nat, netAttemptFails NetResp.exn) ∧
    (evaluateWithDetails {} brokenCache (fun _ => .exn) 0
        ⟨{}, (), false, none⟩ "x".data none .null).1 =
      evaluateOffline {} "x".data .null := by
  refine ⟨rfl, fun _ => trivial, ?_⟩
  exact ((c1_never_raises_degrades_offline Unit {} brokenCache (fun _ => .exn) 0
    ⟨{}, (), false, none⟩ "x".data none .null).2 rfl (fun _ => trivial)).1

/-- C4.  With `retry_attempts = 3` and every attempt failing retryably, the
remote evaluation performs exactly 3 request attempts and then raises (so
the pipeline falls back); with exponential backoff the sleeps performed
between attempts are `delay * 2^0` and `delay * 2^1` — an initial segment
of the `delay, 2*delay, 4*delay` schedule. -/
theorem c4_retry_budget :
    ∀ (conn : ConnectionConfig) (net : Nat → NetResp) (default_value : FlagValue),
    conn.retry_attempts = 3 → conn.exponential_backoff = true →
    (∀ n, netAttemptFails (net n)) →
    evaluateRemote conn net default_value =
      (.error (), 3, [conn.retry_delay * 2 ^ 0, conn.retry_delay * 2 ^ 1]) ∧
    ∃ rest,
      [conn.retry_delay, 2 * conn.retry_delay, 4 * conn.retry_delay] =
        (evaluateRemote conn net default_value).2.2 ++ rest := by
  intro conn net default_value h3 hexp hf
  have h := remoteLoop_allFail conn net default_value hf conn.retry_attempts 0 (by omega)
  rw [h3] at h
  have hrng : List.range (3 - 1) = [0, 1] := by decide
  rw [hrng] at h
  simp only [List.map_cons, List.map_nil, hexp, if_true, Nat.zero_add, Nat.add_zero] at h
  have he : evaluateRemote conn net default_value =
      (.error (), 3, [conn.retry_delay * 2 ^ 0, conn.retry_delay * 2 ^ 1]) := by
    rw [evaluateRemote, h3, h]
  refine ⟨he, [4 * conn.retry_delay], ?_⟩
  rw [he]
  simp [pow_succ, pow_zero]
  ring

/-- Witness for C4 at a concrete configuration and responder. -/
theorem c4_witness :
    (⟨.streaming, 3, 5, true⟩ : ConnectionConfig).retry_attempts = 3 ∧
    (⟨.streaming, 3, 5, true⟩ : ConnectionConfig).exponential_backoff = true ∧
    (∀ _n : Nat, netAttemptFails (NetResp.resp 500 .nil)) ∧
    (evaluateRemote ⟨.streaming, 3, 5, true⟩ (fun _ => .resp 500 .nil) .null =
        (.error (), 3, [5 * 2 ^ 0, 5 * 2 ^ 1]) ∧
      ∃ rest, [5, 2 * 5, 4 * 5] =
        (evaluateRemote ⟨.streaming, 3, 5, true⟩ (fun _ => .resp 500 .nil) .null).2.2 ++ rest) := by
  refine ⟨rfl, rfl, fun _ => ⟨by decide, by decide⟩, ?_⟩
  exact c4_retry_budget ⟨.streaming, 3, 5, true⟩ (fun _ => .resp 500 .nil) .null rfl rfl
    (fun _ => ⟨by decide, by decide⟩)

/-- Counterexample to C5: with `retry_attempts = 3` and an endpoint that
always answers 401, the loop performs 3 attempts, not 1 — `_evaluate_remote`
has no unauthorized branch, so a 401 is raised and retried like any other
non-2xx, non-404 status. -/
theorem c5_counterexample :
    (evaluateRemote ⟨.streaming, 3, 1, true⟩ (fun _ => .resp 401 .nil) .null).2.1 = 3 ∧
    (evaluateRemote ⟨.streaming, 3, 1, true⟩ (fun _ => .resp 401 .nil) .null).2.1 ≠ 1 := by
  constructor <;> decide

/-- C5 (amended).  A 401 response is not terminal: it is raised and retried
like any other non-2xx, non-404 status, up to the configured retry budget
(`retry_attempts` request attempts in total), after which the loop's
exception propagates and — on a cache miss — the evaluation degrades to the
offline path. -/
theorem c5_amended_unauthorized_retried :
    ∀ (cfg : FlexFlagConfig) (net : Nat → NetResp) (default_value : FlagValue),
    (∀ n, ∃ body, net n = .resp 401 body) →
    1 ≤ cfg.connection.retry_attempts →
    (evaluateRemote cfg.connection net default_value).2.1 =
        cfg.connection.retry_attempts ∧
    (evaluateRemote cfg.connection net default_value).1 = .error () ∧
    (∀ (σ : Type) (cp : CacheProviderM σ) (latency_ms : ℚ) (st : ClientState σ)
       (flag_key : Str) (context : Option EvaluationContext),
      (getFromCache cfg cp st.cacheState
        (buildCacheKey flag_key (context <|> st.context) cfg.environment)).1 = .null →
      (evaluateWithDetails cfg cp net latency_ms st flag_key context default_value).1 =
        evaluateOffline cfg flag_key default_value) := by
  intro cfg net default_value h401 h1
  have hf : ∀ n, netAttemptFails (net n) := by
    intro n
    obtain ⟨body, hb⟩ := h401 n
    rw [hb]
    exact ⟨by decide, by decide⟩
  have h := remoteLoop_allFail cfg.connection net default_value hf
    cfg.connection.retry_attempts 0 h1
  refine ⟨?_, ?_, ?_⟩
  · rw [evaluateRemote, h]
  · rw [evaluateRemote, h]
  · intro σ cp latency_ms st flag_key context hmiss
    exact evaluateWithDetails_offline_fallback cfg cp net latency_ms st
      flag_key context default_value hmiss hf

/-- Witness for C5 (amended) at a concrete configuration. -/
theorem c5_amended_witness :
    (∀ _n : Nat, ∃ body, NetResp.resp 401 JObj.nil = NetResp.resp 401 body) ∧
    1 ≤ ({} : FlexFlagConfig).connection.retry_attempts ∧
    (evaluateRemote ({} : FlexFlagConfig).connection (fun _ => .resp 401 .nil) .null).2.1 =
      ({} : FlexFlagConfig).connection.retry_attempts := by
  refine ⟨fun _ => ⟨.nil, rfl⟩, by decide, ?_⟩
  exact (c5_amended_unauthorized_retried {} (fun _ => .resp 401 .nil) .null
    (fun _ => ⟨.nil, rfl⟩) (by decide)).1

lemma findHit_append_miss {k : Str} (pre : List Tier) (rest : List Tier)
    (h : ∀ t ∈ pre, tierGet t k = .ok .null) :
    findHit k (pre ++ rest) =
      match findHit k rest with
      | .error e => .error e
      | .ok none => .ok none
      | .ok (some (i, v)) => .ok (some (i + pre.length, v)) := by
  induction pre with
  | nil =>
      cases hr : findHit k rest with
      | error e => simp [hr]
      | ok o => cases o with
        | none => simp [hr]
        | some p => rcases p with ⟨i, v⟩; simp [hr]
  | cons t pre ih =>
      have ht : tierGet t k = .ok .null := h t (by simp)
      have hpre : ∀ t' ∈ pre, tierGet t' k = .ok .null := fun t' ht' => h t' (by simp [ht'])
      rw [List.cons_append, findHit, ht]
      simp only [ne_eq, not_true_eq_false, if_false, ih hpre]
      cases hr : findHit k rest with
      | error e => rfl
      | ok o => cases o with
        | none => rfl
        | some p =>
            rcases p with ⟨i, v⟩
            simp only [List.length_cons]
            have hi : i + pre.length + 1 = i + (pre.length + 1) := by omega
            rw [hi]

lemma backfillTiers_exact {k : Str} {v : FlagValue} (pre : List Tier) (rest : List Tier)
    (h : ∀ t ∈ pre, t.setFails = false) :
    backfillTiers k v pre.length (pre ++ rest) =
      .ok (pre.map (fun t => { t with store := dictInsert k v t.store }) ++ rest) := by
  induction pre with
  | nil => rfl
  | cons t pre ih =>
      have ht : t.setFails = false := h t (by simp)
      have hpre : ∀ t' ∈ pre, t'.setFails = false := fun t' ht' => h t' (by simp [ht'])
      simp only [List.length_cons, List.cons_append, backfillTiers, tierSet, ht,
        Bool.false_eq_true, if_false, List.map_cons, List.append_eq]
      rw [ih hpre]

lemma backfillTiers_fails {k : Str} {v : FlagValue} (pre1 : List Tier) (tf : Tier)
    (rest : List Tier) (h1 : ∀ t ∈ pre1, t.setFails = false) (hf : tf.setFails = true) :
    ∀ j, backfillTiers k v (pre1.length + 1 + j) (pre1 ++ tf :: rest) = .error () := by
  induction pre1 with
  | nil =>
      intro j
      have : Nat.succ 0 + j = j + 1 := by omega
      simp only [List.length_nil, List.nil_append, Nat.zero_add]
      rw [show 1 + j = j + 1 by omega]
      rw [backfillTiers, tierSet, hf]
      rfl
  | cons t pre1 ih =>
      intro j
      have ht : t.setFails = false := h1 t (by simp)
      have hpre : ∀ t' ∈ pre1, t'.setFails = false := fun t' ht' => h1 t' (by simp [ht'])
      have hn : (t :: pre1).length + 1 + j = (pre1.length + 1 + j) + 1 := by
        simp; omega
      rw [hn, List.cons_append, backfillTiers, tierSet, ht]
      simp only [Bool.false_eq_true, if_false, ih hpre j]

/-- Counterexample to C7: tier 0 is empty but its `set` raises, tier 1
holds `"k" ↦ "v"`.  The claim says `get("k")` must still return `"v"`;
in the code the backfill write is not exception-protected, so the raised
`set` escapes and the whole `get` fails. -/
theorem c7_counterexample :
    tieredGet [{ store := [], getFails := false, setFails := true },
               { store := [("k".data, .str "v".data)], getFails := false,
                 setFails := false }] "k".data = .error () := by
  rfl

/-- C7 (amended).  `TieredCache.get` probes tiers in order and returns the
first non-`None` value; on a hit at tier `i` it writes that value into
every tier `0..i-1` (in ascending order) before returning — provided those
backfill writes succeed.  A raised error during a backfill write is not
caught: it propagates and the whole `get` fails instead of returning the
hit value. -/
theorem c7_amended_tiered_backfill :
    (∀ (pre post : List Tier) (t : Tier) (k : Str) (v : FlagValue),
      (∀ t' ∈ pre, tierGet t' k = .ok .null) →
      (∀ t' ∈ pre, t'.setFails = false) →
      tierGet t k = .ok v → v ≠ .null →
      tieredGet (pre ++ t :: post) k =
        .ok (v, pre.map (fun t' => { t' with store := dictInsert k v t'.store })
              ++ t :: post)) ∧
    (∀ (pre1 : List Tier) (tf : Tier) (pre2 post : List Tier) (t : Tier)
       (k : Str) (v : FlagValue),
      (∀ t' ∈ pre1 ++ tf :: pre2, tierGet t' k = .ok .null) →
      (∀ t' ∈ pre1, t'.setFails = false) → tf.setFails = true →
      tierGet t k = .ok v → v ≠ .null →
      tieredGet (pre1 ++ tf :: pre2 ++ t :: post) k = .error ()) := by
  constructor
  · intro pre post t k v hmiss hset ht hv
    have hfh : findHit k (t :: post) = .ok (some (0, v)) := by
      rw [findHit, ht]
      simp [hv]
    rw [tieredGet, findHit_append_miss pre (t :: post) hmiss, hfh]
    simp only [Nat.zero_add]
    rw [backfillTiers_exact pre (t :: post) hset]
  · intro pre1 tf pre2 post t k v hmiss hset1 hsetf ht hv
    have hfh : findHit k (t :: post) = .ok (some (0, v)) := by
      rw [findHit, ht]
      simp [hv]
    have happ : pre1 ++ tf :: pre2 ++ t :: post = (pre1 ++ tf :: pre2) ++ t :: post := by
      simp
    rw [tieredGet, happ, findHit_append_miss (pre1 ++ tf :: pre2) (t :: post) hmiss, hfh]
    simp only [Nat.zero_add]
    have hlen : (pre1 ++ tf :: pre2).length = pre1.length + 1 + pre2.length := by
      simp; omega
    rw [hlen, show pre1.length + 1 + pre2.length = pre1.length + 1 + pre2.length from rfl]
    have hbf := backfillTiers_fails (k := k) (v := v) pre1 tf (pre2 ++ t :: post)
      hset1 hsetf pre2.length
    rw [show (pre1 ++ tf :: pre2) ++ t :: post = pre1 ++ tf :: (pre2 ++ t :: post) by simp]
    rw [hbf]

/-- Witness for C7 (amended): a two-tier cache with an empty, working tier 0
and `"k" ↦ "v"` in tier 1; `get "k"` returns `"v"` and backfills tier 0. -/
theorem c7_amended_witness :
    (∀ t' ∈ [({ store := [], getFails := false, setFails := false } : Tier)],
      tierGet t' "k".data = .ok .null) ∧
    tieredGet [{ store := [], getFails := false, setFails := false },
               { store := [("k".data, .str "v".data)], getFails := false,
                 setFails := false }] "k".data =
      .ok (.str "v".data,
        [{ store := [("k".data, .str "v".data)], getFails := false, setFails := false },
         { store := [("k".data, .str "v".data)], getFails := false, setFails := false }]) := by
  constructor
  · intro t' ht'
    simp at ht'
    subst ht'
    rfl
  · have h := (c7_amended_tiered_backfill.1
      [({ store := [], getFails := false, setFails := false } : Tier)]
      []
      { store := [("k".data, .str "v".data)], getFails := false, setFails := false }
      "k".data (.str "v".data)
      (by intro t' ht'; simp at ht'; subst ht'; rfl)
      (by intro t' ht'; simp at ht'; subst ht'; rfl)
      rfl (by decide))
    simpa using h

/-- C8 (code bug).  A `DiskCache.get` that finds an expired row calls
`await self.delete(key)` while already holding the non-reentrant
`asyncio.Lock` that `delete` itself acquires, so the call deadlocks and
never completes (`diskGet = none`) — whereas the evidently intended lazy
expiry (`diskGetIntended`, the same body with `delete`'s row removal
inlined under the held lock) deletes the row and reports absent. -/
theorem c8_diskGet_expired_deadlocks :
    diskGet [] 1 { locked := false, rows := [("k".data, .str "v".data, 0)] } "k".data
      = none ∧
    diskGetIntended [] 1 { locked := false, rows := [("k".data, .str "v".data, 0)] }
      "k".data = (.null, { locked := false, rows := [] }) := by
  constructor <;> rfl

/-- Counterexample to C2: a single evaluation in offline connection mode
(an evaluation that was performed and returned a result) leaves
`metrics.evaluations` at 0 — the offline branches of
`evaluate_with_details` never increment it, so after this one evaluation
the counter does not equal the number of evaluations performed (1). -/
theorem c2_counterexample :
    (evaluateWithDetails
        { connection := { mode := .offline, retry_attempts := 3, retry_delay := 1,
                          exponential_backoff := true } }
        (memoryCacheProvider "flexflag:".data) (fun _ => .exn) 0
        ⟨{}, [], false, none⟩ "f".data none .null).2.1.metrics.evaluations = 0 ∧
    (0 : Nat) ≠ 1 := by
  exact ⟨rfl, by decide⟩

lemma batchPartition_metrics {σ : Type} (cfg : FlexFlagConfig) (cp : CacheProviderM σ)
    (ec : Option EvaluationContext) :
    ∀ (keys : List Str) (s : σ) (m : SDKMetrics),
      (batchPartition cfg cp ec keys s m).2.2.2.1.evaluations = m.evaluations ∧
      (batchPartition cfg cp ec keys s m).2.2.2.1.errors = m.errors ∧
      (batchPartition cfg cp ec keys s m).2.2.2.1.network_requests = m.network_requests ∧
      (batchPartition cfg cp ec keys s m).2.2.2.1.average_latency_ms = m.average_latency_ms ∧
      (batchPartition cfg cp ec keys s m).2.2.2.1.cache_hits
        + (batchPartition cfg cp ec keys s m).2.2.2.1.cache_misses
        = m.cache_hits + m.cache_misses + keys.length := by
  intro keys
  induction keys with
  | nil => intro s m; exact ⟨rfl, rfl, rfl, rfl, by simp [batchPartition]⟩
  | cons k tl ih =>
      intro s m
      simp only [batchPartition]
      split
      · have h := ih (getFromCache cfg cp s (buildCacheKey k ec cfg.environment)).2
          { m with cache_hits := m.cache_hits + 1 }
        refine ⟨h.1, h.2.1, h.2.2.1, h.2.2.2.1, ?_⟩
        have h5 := h.2.2.2.2
        dsimp only at h5 ⊢
        simp only [List.length_cons]
        omega
      · have h := ih (getFromCache cfg cp s (buildCacheKey k ec cfg.environment)).2
          { m with cache_misses := m.cache_misses + 1 }
        refine ⟨h.1, h.2.1, h.2.2.1, h.2.2.2.1, ?_⟩
        have h5 := h.2.2.2.2
        dsimp only at h5 ⊢
        simp only [List.length_cons]
        omega

/-- C2 (amended).  `cache_hits`/`cache_misses` are incremented at the point
of cache lookup (per key, also in batches), but `evaluations` is only
incremented on the cache-hit and remote-success branches of a single
evaluation: an evaluation resolved offline (offline mode, or fallback
after a failure) leaves `evaluations` unchanged.  Batch evaluation adds
the number of requested keys unconditionally. -/
theorem c2_amended_metrics :
    ∀ (σ : Type) (cfg : FlexFlagConfig) (cp : CacheProviderM σ)
      (net : Nat → NetResp) (latency_ms : ℚ) (st : ClientState σ)
      (flag_key : Str) (context : Option EvaluationContext)
      (default_value : FlagValue)
      (bnet : Except Unit (List (Str × FlagValue))) (flag_keys : List Str),
    ((getFromCache cfg cp st.cacheState
        (buildCacheKey flag_key (context <|> st.context) cfg.environment)).1 ≠ .null →
      (evaluateWithDetails cfg cp net latency_ms st flag_key context
          default_value).2.1.metrics.evaluations = st.metrics.evaluations + 1 ∧
      (evaluateWithDetails cfg cp net latency_ms st flag_key context
          default_value).2.1.metrics.cache_hits = st.metrics.cache_hits + 1 ∧
      (evaluateWithDetails cfg cp net latency_ms st flag_key context
          default_value).2.1.metrics.cache_misses = st.metrics.cache_misses) ∧
    ((getFromCache cfg cp st.cacheState
        (buildCacheKey flag_key (context <|> st.context) cfg.environment)).1 = .null →
      (evaluateWithDetails cfg cp net latency_ms st flag_key context
          default_value).2.1.metrics.cache_misses = st.metrics.cache_misses + 1 ∧
      (evaluateWithDetails cfg cp net latency_ms st flag_key context
          default_value).2.1.metrics.cache_hits = st.metrics.cache_hits ∧
      ((st.offline_mode ∨ cfg.connection.mode = .offline) →
        (evaluateWithDetails cfg cp net latency_ms st flag_key context
            default_value).2.1.metrics.evaluations = st.metrics.evaluations) ∧
      (¬(st.offline_mode ∨ cfg.connection.mode = .offline) →
        ((∃ r, (evaluateRemote cfg.connection net default_value).1 = .ok r) →
          (evaluateWithDetails cfg cp net latency_ms st flag_key context
              default_value).2.1.metrics.evaluations = st.metrics.evaluations + 1) ∧
        ((evaluateRemote cfg.connection net default_value).1 = .error () →
          (evaluateWithDetails cfg cp net latency_ms st flag_key context
              default_value).2.1.metrics.evaluations = st.metrics.evaluations ∧
          (evaluateWithDetails cfg cp net latency_ms st flag_key context
              default_value).2.1.metrics.errors = st.metrics.errors + 1))) ∧
    ((evaluateBatch cfg cp bnet st flag_keys context).2.1.metrics.evaluations =
        st.metrics.evaluations + flag_keys.length ∧
      (evaluateBatch cfg cp bnet st flag_keys context).2.1.metrics.cache_hits
        + (evaluateBatch cfg cp bnet st flag_keys context).2.1.metrics.cache_misses
        = st.metrics.cache_hits + st.metrics.cache_misses + flag_keys.length) := by
  intro σ cfg cp net latency_ms st flag_key context default_value bnet flag_keys
  refine ⟨?_, ?_, ?_⟩
  · intro hhit
    rw [evaluateWithDetails]
    simp only [hhit, if_true, updateAverageLatency]
    split <;> simp
  · intro hmiss
    rw [evaluateWithDetails]
    simp only [hmiss, ne_eq, not_true_eq_false, if_false]
    by_cases hoff : st.offline_mode ∨ cfg.connection.mode = .offline
    · simp only [if_pos hoff]
      refine ⟨by simp, by simp, fun _ => by simp, fun h => absurd hoff h⟩
    · simp only [if_neg hoff]
      rcases hrem : evaluateRemote cfg.connection net default_value with ⟨res, a, sl⟩
      cases res with
      | ok r =>
          simp only [updateAverageLatency]
          refine ⟨?_, ?_, fun h => absurd h hoff, fun _ => ⟨fun _ => ?_, fun hc => ?_⟩⟩
          · split <;> simp
          · split <;> simp
          · split <;> simp
          · exact absurd hc (by simp)
      | error e =>
          refine ⟨by simp, by simp, fun h => absurd h hoff,
            fun _ => ⟨fun hc => ?_, fun _ => ⟨by simp, by simp⟩⟩⟩
          obtain ⟨r, hr⟩ := hc
          exact absurd hr (by simp)
  · have hp := batchPartition_metrics cfg cp (context <|> st.context) flag_keys
      st.cacheState st.metrics
    rw [evaluateBatch]
    constructor
    · by_cases hcond : (batchPartition cfg cp (context <|> st.context) flag_keys
          st.cacheState st.metrics).2.1 ≠ [] ∧ ¬st.offline_mode ∧
          cfg.connection.mode ≠ .offline
      · simp only [if_pos hcond]
        cases bnet with
        | ok rr => simpa using hp.1
        | error e => simpa using hp.1
      · simp only [if_neg hcond]
        simpa using hp.1
    · by_cases hcond : (batchPartition cfg cp (context <|> st.context) flag_keys
          st.cacheState st.metrics).2.1 ≠ [] ∧ ¬st.offline_mode ∧
          cfg.connection.mode ≠ .offline
      · simp only [if_pos hcond]
        cases bnet with
        | ok rr => simpa using hp.2.2.2.2
        | error e => simpa using hp.2.2.2.2
      · simp only [if_neg hcond]
        simpa using hp.2.2.2.2

/-- Witness for C2 (amended): a cache hit on a concrete client. -/
theorem c2_amended_witness :
    (getFromCache {} (memoryCacheProvider "flexflag:".data)
        (ClientState.cacheState ⟨{}, [("flexflag:f::production".data, .str "v".data)], false, none⟩)
        (buildCacheKey "f".data (none <|> none) ({} : FlexFlagConfig).environment)).1 ≠ .null ∧
    (evaluateWithDetails {} (memoryCacheProvider "flexflag:".data) (fun _ => .exn) 2
        ⟨{}, [("flexflag:f::production".data, .str "v".data)], false, none⟩
        "f".data none .null).2.1.metrics.evaluations = 0 + 1 := by
  constructor
  · decide
  · exact ((c2_amended_metrics (List (Str × FlagValue)) {} (memoryCacheProvider "flexflag:".data)
      (fun _ => .exn) 2 ⟨{}, [("flexflag:f::production".data, .str "v".data)], false, none⟩
      "f".data none .null (.error ()) []).1 (by decide)).1

lemma evaluateWithDetails_hit_avg {σ : Type} (cfg : FlexFlagConfig)
    (cp : CacheProviderM σ) (net : Nat → NetResp) (latency_ms : ℚ)
    (st : ClientState σ) (flag_key : Str) (context : Option EvaluationContext)
    (default_value : FlagValue)
    (hhit : (getFromCache cfg cp st.cacheState
      (buildCacheKey flag_key (context <|> st.context) cfg.environment)).1 ≠ .null) :
    (evaluateWithDetails cfg cp net latency_ms st flag_key context
        default_value).2.1.metrics.average_latency_ms =
      (st.metrics.average_latency_ms * ((st.metrics.evaluations : ℚ) + 1) + latency_ms) /
        ((st.metrics.evaluations : ℚ) + 2) := by
  rw [evaluateWithDetails]
  simp only [hhit, if_true, updateAverageLatency]
  split
  · split
    · rename_i h1
      exact absurd h1 (by omega)
    · push_cast
      ring_nf
  · rename_i h0
    exact absurd hhit h0

lemma evaluateWithDetails_remote_avg {σ : Type} (cfg : FlexFlagConfig)
    (cp : CacheProviderM σ) (net : Nat → NetResp) (latency_ms : ℚ)
    (st : ClientState σ) (flag_key : Str) (context : Option EvaluationContext)
    (default_value : FlagValue)
    (hmiss : (getFromCache cfg cp st.cacheState
      (buildCacheKey flag_key (context <|> st.context) cfg.environment)).1 = .null)
    (hoff : ¬(st.offline_mode ∨ cfg.connection.mode = .offline))
    (hok : ∃ r, (evaluateRemote cfg.connection net default_value).1 = .ok r) :
    (evaluateWithDetails cfg cp net latency_ms st flag_key context
        default_value).2.1.metrics.average_latency_ms =
      (st.metrics.average_latency_ms * ((st.metrics.evaluations : ℚ) + 1) + latency_ms) /
        ((st.metrics.evaluations : ℚ) + 2) := by
  rw [evaluateWithDetails]
  simp only [hmiss, ne_eq, not_true_eq_false, if_false]
  simp only [if_neg hoff]
  rcases hrem : evaluateRemote cfg.connection net default_value with ⟨res, a, sl⟩
  cases res with
  | ok r =>
      simp only [updateAverageLatency]
      split
      · rename_i h0
        exact absurd h0 (by omega)
      · push_cast
        ring_nf
  | error e =>
      obtain ⟨r, hr⟩ := hok
      rw [hrem] at hr
      exact absurd hr (by simp)

/-- Counterexample to C6: a first evaluation (a cache hit) whose latency
sample is 2 ms leaves `average_latency_ms = 1`, not the arithmetic mean 2
of the recorded samples `[2]` — `_update_average_latency` runs after the
`evaluations` increment, so its `n` is the post-increment count (the first
sample is averaged with the initial 0). -/
theorem c6_counterexample :
    (evaluateWithDetails {} (memoryCacheProvider "flexflag:".data) (fun _ => .exn) 2
        ⟨{}, [("flexflag:f::production".data, .str "v".data)], false, none⟩
        "f".data none .null).2.1.metrics.average_latency_ms = 1 ∧
    (evaluateWithDetails {} (memoryCacheProvider "flexflag:".data) (fun _ => .exn) 2
        ⟨{}, [("flexflag:f::production".data, .str "v".data)], false, none⟩
        "f".data none .null).2.1.metrics.average_latency_ms ≠ 2 := by
  have h := evaluateWithDetails_hit_avg {} (memoryCacheProvider "flexflag:".data)
    (fun _ => .exn) 2 ⟨{}, [("flexflag:f::production".data, .str "v".data)], false, none⟩
    "f".data none .null (by decide)
  rw [h]
  norm_num

/-- C6 (amended).  The running mean is maintained as
`avg' = (avg * n + sample) / (n + 1)` where `n` is the evaluation count
*after* that evaluation's increment, i.e.
`avg' = (avg * (n0 + 1) + sample) / (n0 + 2)` in terms of the count `n0`
before the call; consequently `average_latency_ms` is a sample-weighted
value, not the arithmetic mean of the recorded samples (a first sample `s`
yields `s / 2`). -/
theorem c6_amended_latency :
    ∀ (σ : Type) (cfg : FlexFlagConfig) (cp : CacheProviderM σ)
      (net : Nat → NetResp) (latency_ms : ℚ) (st : ClientState σ)
      (flag_key : Str) (context : Option EvaluationContext)
      (default_value : FlagValue),
    ((getFromCache cfg cp st.cacheState
        (buildCacheKey flag_key (context <|> st.context) cfg.environment)).1 ≠ .null →
      (evaluateWithDetails cfg cp net latency_ms st flag_key context
          default_value).2.1.metrics.average_latency_ms =
        (st.metrics.average_latency_ms * ((st.metrics.evaluations : ℚ) + 1) + latency_ms) /
          ((st.metrics.evaluations : ℚ) + 2)) ∧
    ((getFromCache cfg cp st.cacheState
        (buildCacheKey flag_key (context <|> st.context) cfg.environment)).1 = .null →
      ¬(st.offline_mode ∨ cfg.connection.mode = .offline) →
      (∃ r, (evaluateRemote cfg.connection net default_value).1 = .ok r) →
      (evaluateWithDetails cfg cp net latency_ms st flag_key context
          default_value).2.1.metrics.average_latency_ms =
        (st.metrics.average_latency_ms * ((st.metrics.evaluations : ℚ) + 1) + latency_ms) /
          ((st.metrics.evaluations : ℚ) + 2)) := by
  intro σ cfg cp net latency_ms st flag_key context default_value
  exact ⟨fun hhit => evaluateWithDetails_hit_avg cfg cp net latency_ms st flag_key
      context default_value hhit,
    fun hmiss hoff hok => evaluateWithDetails_remote_avg cfg cp net latency_ms st
      flag_key context default_value hmiss hoff hok⟩

/-- Witness for C6 (amended): the concrete cache-hit client of the
counterexample satisfies the post-increment recurrence. -/
theorem c6_amended_witness :
    (getFromCache {} (memoryCacheProvider "flexflag:".data)
        (ClientState.cacheState ⟨{}, [("flexflag:f::production".data, .str "v".data)], false, none⟩)
        (buildCacheKey "f".data (none <|> none) ({} : FlexFlagConfig).environment)).1 ≠ .null ∧
    (evaluateWithDetails {} (memoryCacheProvider "flexflag:".data) (fun _ => .exn) 2
        ⟨{}, [("flexflag:f::production".data, .str "v".data)], false, none⟩
        "f".data none .null).2.1.metrics.average_latency_ms = 1 := by
  constructor
  · decide
  · have h := (c6_amended_latency (List (Str × FlagValue)) {} (memoryCacheProvider "flexflag:".data)
      (fun _ => .exn) 2 ⟨{}, [("flexflag:f::production".data, .str "v".data)], false, none⟩
      "f".data none .null).1 (by decide)
    rw [h]
    norm_num

lemma getFromCache_mem_state (cfg : FlexFlagConfig) (pfx : Str)
    (s : List (Str × FlagValue)) (key : Str) :
    (getFromCache cfg (memoryCacheProvider pfx) s key).2 = s := by
  rw [getFromCache]
  split <;> rfl

lemma getFromCache_mem_val (cfg : FlexFlagConfig) (pfx : Str)
    (s : List (Str × FlagValue)) (key : Str)
    (h : (flagLookup (pfx ++ key) s).getD .null = .null) :
    (getFromCache cfg (memoryCacheProvider pfx) s key).1 = .null := by
  rw [getFromCache]
  split
  · exact h
  · rfl

lemma flagLookup_dictInsert (k k' : Str) (v : FlagValue) (d : List (Str × FlagValue)) :
    flagLookup k (dictInsert k' v d) = if k = k' then some v else flagLookup k d := by
  induction d with
  | nil => simp [dictInsert, flagLookup]
  | cons p tl ih =>
      rcases p with ⟨a, b⟩
      rw [dictInsert]
      by_cases hk : k' = a
      · rw [if_pos hk]
        rw [flagLookup, flagLookup]
        subst hk
        split <;> rfl
      · rw [if_neg hk, flagLookup, flagLookup, ih]
        by_cases hka : k = a
        · subst hka
          rw [if_pos rfl, if_pos rfl, if_neg (fun he => hk he.symm)]
        · rw [if_neg hka, if_neg hka]

lemma flagLookup_dictUpdate_map {f : Str → FlagValue} :
    ∀ (l d : List (Str × FlagValue)), (∀ p ∈ l, p.2 = f p.1) → ∀ k,
      flagLookup k (dictUpdate d l) =
        if k ∈ l.map Prod.fst then some (f k) else flagLookup k d := by
  intro l
  induction l with
  | nil => intro d _ k; simp [dictUpdate]
  | cons p tl ih =>
      intro d hl k
      have hstep : dictUpdate d (p :: tl) = dictUpdate (dictInsert p.1 p.2 d) tl := rfl
      rw [hstep, ih (dictInsert p.1 p.2 d) (fun q hq => hl q (List.mem_cons_of_mem _ hq)) k]
      simp only [List.map_cons, List.mem_cons]
      by_cases hmem : k ∈ tl.map Prod.fst
      · rw [if_pos hmem, if_pos (Or.inr hmem)]
      · rw [if_neg hmem, flagLookup_dictInsert]
        by_cases hkp : k = p.1
        · rw [if_pos hkp, if_pos (Or.inl hkp), hl p (List.mem_cons_self _ _), hkp]
        · rw [if_neg hkp, if_neg (by
            intro hc
            rcases hc with h | h
            · exact hkp h
            · exact hmem h)]

lemma flagLookup_fillOfflineDefaults (cfg : FlexFlagConfig) :
    ∀ (misses : List Str) (results : List (Str × FlagValue)) (k : Str),
      flagLookup k (fillOfflineDefaults cfg misses results) =
        if k ∈ misses ∧ (flagLookup k cfg.offline.default_flags).getD .null ≠ .null
        then some ((flagLookup k cfg.offline.default_flags).getD .null)
        else flagLookup k results := by
  intro misses
  induction misses with
  | nil => intro results k; simp [fillOfflineDefaults]
  | cons m tl ih =>
      intro results k
      rw [fillOfflineDefaults]
      by_cases hm : (flagLookup m cfg.offline.default_flags).getD .null ≠ .null
      · rw [if_pos hm, ih]
        by_cases htl : k ∈ tl ∧ (flagLookup k cfg.offline.default_flags).getD .null ≠ .null
        · rw [if_pos htl, if_pos ⟨by simp [htl.1], htl.2⟩]
        · rw [if_neg htl, flagLookup_dictInsert]
          by_cases hkm : k = m
          · subst hkm
            rw [if_pos rfl, if_pos ⟨by simp, hm⟩]
          · rw [if_neg hkm, if_neg (by
              intro hc
              rcases hc with ⟨hmem, hne⟩
              rcases List.mem_cons.1 hmem with h | h
              · exact hkm h
              · exact htl ⟨h, hne⟩)]
      · rw [if_neg hm, ih]
        by_cases htl : k ∈ tl ∧ (flagLookup k cfg.offline.default_flags).getD .null ≠ .null
        · rw [if_pos htl, if_pos ⟨by simp [htl.1], htl.2⟩]
        · rw [if_neg htl, if_neg (by
            intro hc
            rcases hc with ⟨hmem, hne⟩
            rcases List.mem_cons.1 hmem with h | h
            · subst h; exact hm hne
            · exact htl ⟨h, hne⟩)]

/-- Whether `flag_key` is a cache miss for the memory backend contents `s`. -/
def memMiss (cfg : FlexFlagConfig) (ec : Option EvaluationContext)
    (s : List (Str × FlagValue)) (flag_key : Str) : Bool :=
  decide ((getFromCache cfg (memoryCacheProvider cfg.cache.key_pfx) s
    (buildCacheKey flag_key ec cfg.environment)).1 = .null)

lemma batchPartition_mem (cfg : FlexFlagConfig) (ec : Option EvaluationContext) :
    ∀ (keys : List Str) (s : List (Str × FlagValue)) (m : SDKMetrics),
      (batchPartition cfg (memoryCacheProvider cfg.cache.key_pfx) ec keys s m).1 =
        (keys.filter (fun k => !memMiss cfg ec s k)).map
          (fun k => (k, (getFromCache cfg (memoryCacheProvider cfg.cache.key_pfx) s
            (buildCacheKey k ec cfg.environment)).1)) ∧
      (batchPartition cfg (memoryCacheProvider cfg.cache.key_pfx) ec keys s m).2.1 =
        keys.filter (memMiss cfg ec s) ∧
      (batchPartition cfg (memoryCacheProvider cfg.cache.key_pfx) ec keys s m).2.2.1 = s := by
  intro keys
  induction keys with
  | nil => intro s m; exact ⟨rfl, rfl, rfl⟩
  | cons k tl ih =>
      intro s m
      have hst := getFromCache_mem_state cfg cfg.cache.key_pfx s
        (buildCacheKey k ec cfg.environment)
      simp only [batchPartition, hst]
      by_cases hk : (getFromCache cfg (memoryCacheProvider cfg.cache.key_pfx) s
          (buildCacheKey k ec cfg.environment)).1 = .null
      · have hmiss : memMiss cfg ec s k = true := by simp [memMiss, hk]
        rw [if_neg (by simp [hk])]
        refine ⟨?_, ?_, (ih s { m with cache_misses := m.cache_misses + 1 }).2.2⟩
        · rw [List.filter_cons_of_neg (by simp [hmiss])]
          exact (ih s { m with cache_misses := m.cache_misses + 1 }).1
        · rw [List.filter_cons_of_pos (by simp [hmiss])]
          rw [(ih s { m with cache_misses := m.cache_misses + 1 }).2.1]
      · have hmiss : memMiss cfg ec s k = false := by simp [memMiss, hk]
        rw [if_pos (by simpa using hk)]
        refine ⟨?_, ?_, (ih s { m with cache_hits := m.cache_hits + 1 }).2.2⟩
        · rw [List.filter_cons_of_pos (by simp [hmiss]), List.map_cons]
          rw [(ih s { m with cache_hits := m.cache_hits + 1 }).1]
        · rw [List.filter_cons_of_neg (by simp [hmiss])]
          exact (ih s { m with cache_hits := m.cache_hits + 1 }).2.1

/-- C9.  In an online batch evaluation with at least one cache miss, the
misses are fetched through one remote batch call: `network_requests` grows
by exactly 1 whatever the number of missed keys and whether the call
succeeds or fails; and when the batch call fails, every missed key with a
configured (non-`None`) offline default appears in the result mapping with
that default, while every missed key without one is absent from the result
mapping altogether. -/
theorem c9_batch_single_call_and_fallback :
    ∀ (cfg : FlexFlagConfig) (st : ClientState (List (Str × FlagValue)))
      (flag_keys : List Str) (context : Option EvaluationContext)
      (bnet : Except Unit (List (Str × FlagValue))),
    ¬st.offline_mode = true → cfg.connection.mode ≠ .offline →
    (∃ k ∈ flag_keys, memMiss cfg (context <|> st.context) st.cacheState k = true) →
    (evaluateBatch cfg (memoryCacheProvider cfg.cache.key_pfx) bnet st flag_keys
        context).2.1.metrics.network_requests = st.metrics.network_requests + 1 ∧
    (bnet = .error () →
      ∀ k ∈ flag_keys, memMiss cfg (context <|> st.context) st.cacheState k = true →
        ((flagLookup k cfg.offline.default_flags).getD .null ≠ .null →
          flagLookup k (evaluateBatch cfg (memoryCacheProvider cfg.cache.key_pfx)
              bnet st flag_keys context).1 =
            some ((flagLookup k cfg.offline.default_flags).getD .null)) ∧
        ((flagLookup k cfg.offline.default_flags).getD .null = .null →
          flagLookup k (evaluateBatch cfg (memoryCacheProvider cfg.cache.key_pfx)
              bnet st flag_keys context).1 = none)) := by
  intro cfg st flag_keys context bnet hoffm hmode hex
  have hbp := batchPartition_mem cfg (context <|> st.context) flag_keys
    st.cacheState st.metrics
  have hmet := batchPartition_metrics cfg (memoryCacheProvider cfg.cache.key_pfx)
    (context <|> st.context) flag_keys st.cacheState st.metrics
  have hmne : (batchPartition cfg (memoryCacheProvider cfg.cache.key_pfx)
      (context <|> st.context) flag_keys st.cacheState st.metrics).2.1 ≠ [] := by
    rw [hbp.2.1]
    obtain ⟨k, hk, hmk⟩ := hex
    exact List.ne_nil_of_mem (List.mem_filter.2 ⟨hk, hmk⟩)
  have hcond : (batchPartition cfg (memoryCacheProvider cfg.cache.key_pfx)
      (context <|> st.context) flag_keys st.cacheState st.metrics).2.1 ≠ [] ∧
      ¬st.offline_mode = true ∧ cfg.connection.mode ≠ .offline :=
    ⟨hmne, hoffm, hmode⟩
  constructor
  · simp only [evaluateBatch, if_pos hcond]
    cases bnet with
    | ok rr =>
        have := hmet.2.2.1
        dsimp only
        omega
    | error e =>
        have := hmet.2.2.1
        dsimp only
        omega
  · intro hb k hk hmk
    subst hb
    have hres : (evaluateBatch cfg (memoryCacheProvider cfg.cache.key_pfx)
        (.error ()) st flag_keys context).1 =
        fillOfflineDefaults cfg
          ((batchPartition cfg (memoryCacheProvider cfg.cache.key_pfx)
            (context <|> st.context) flag_keys st.cacheState st.metrics).2.1)
          (dictUpdate []
            ((batchPartition cfg (memoryCacheProvider cfg.cache.key_pfx)
              (context <|> st.context) flag_keys st.cacheState st.metrics).1)) := by
      simp only [evaluateBatch, if_pos hcond]
      rw [if_neg (by
        intro hc
        rcases hc with hc | hc
        · exact hoffm hc
        · exact hmode hc)]
    rw [hres, flagLookup_fillOfflineDefaults]
    have hkm : k ∈ (batchPartition cfg (memoryCacheProvider cfg.cache.key_pfx)
        (context <|> st.context) flag_keys st.cacheState st.metrics).2.1 := by
      rw [hbp.2.1]
      exact List.mem_filter.2 ⟨hk, hmk⟩
    constructor
    · intro hdfl
      rw [if_pos ⟨hkm, hdfl⟩]
    · intro hdfl
      rw [if_neg (fun hc => hc.2 hdfl)]
      rw [hbp.1, flagLookup_dictUpdate_map
        (f := fun k' => (getFromCache cfg (memoryCacheProvider cfg.cache.key_pfx)
          st.cacheState (buildCacheKey k' (context <|> st.context) cfg.environment)).1)
        _ [] (by
          intro p hp
          obtain ⟨k', _, hpk⟩ := List.mem_map.1 hp
          rw [← hpk])]
      rw [if_neg (by
        intro hc
        rw [List.map_map] at hc
        obtain ⟨k', hk', hkk⟩ := List.mem_map.1 hc
        have hk'f := List.of_mem_filter hk'
        simp only [Function.comp] at hkk
        rw [hkk] at hk'f
        rw [hmk] at hk'f
        simp at hk'f)]
      rfl

/-- Witness for C9: batch `["a", "b"]` on an empty cache with a failing
batch call; only `"a"` has an offline default. -/
theorem c9_witness :
    (¬(⟨{}, [], false, none⟩ : ClientState (List (Str × FlagValue))).offline_mode = true) ∧
    ({ offline := { default_flags := [("a".data, .bool true)] } }
      : FlexFlagConfig).connection.mode ≠ .offline ∧
    (∃ k ∈ ["a".data, "b".data],
      memMiss { offline := { default_flags := [("a".data, .bool true)] } } (none <|> none)
        [] k = true) ∧
    (evaluateBatch { offline := { default_flags := [("a".data, .bool true)] } }
        (memoryCacheProvider
          ({ offline := { default_flags := [("a".data, .bool true)] } }
            : FlexFlagConfig).cache.key_pfx)
        (.error ()) ⟨{}, [], false, none⟩ ["a".data, "b".data]
        none).2.1.metrics.network_requests = 0 + 1 := by
  refine ⟨by decide, by decide, ⟨"a".data, by decide, by decide⟩, ?_⟩
  exact (c9_batch_single_call_and_fallback
    { offline := { default_flags := [("a".data, .bool true)] } }
    ⟨{}, [], false, none⟩ ["a".data, "b".data] none (.error ())
    (by decide) (by decide) ⟨"a".data, by decide, by decide⟩).1

lemma attemptOutcome_ok_reason {net : Nat → NetResp} {default_value : FlagValue}
    {attempt : Nat} {r : EvaluationResult}
    (h : attemptOutcome net default_value attempt = .ok r) :
    r.reason = .TARGETING_MATCH ∨ r.reason = .DEFAULT := by
  rw [attemptOutcome] at h
  cases hne : net attempt with
  | exn => rw [hne] at h; exact absurd h (by simp)
  | resp status body =>
      rw [hne] at h
      dsimp only at h
      by_cases h200 : status = 200
      · rw [if_pos h200] at h
        cases h
        rw [remoteResultOf]
        by_cases hm : jTruthy ((body.lookup "matched".data).getD .null) = true
        · left; simp [hm]
        · right; simp [hm]
      · rw [if_neg h200] at h
        by_cases h404 : status = 404
        · rw [if_pos h404] at h
          cases h
          right; rfl
        · rw [if_neg h404] at h
          exact absurd h (by simp)

lemma remoteLoop_ok_reason {conn : ConnectionConfig} {net : Nat → NetResp}
    {default_value : FlagValue} :
    ∀ (fuel attempt : Nat) (r : EvaluationResult),
      (remoteLoop conn net default_value attempt fuel).1 = .ok r →
      r.reason = .TARGETING_MATCH ∨ r.reason = .DEFAULT := by
  intro fuel
  induction fuel with
  | zero => intro attempt r h; exact absurd h (by simp [remoteLoop])
  | succ f ih =>
      intro attempt r h
      rw [remoteLoop] at h
      cases hao : attemptOutcome net default_value attempt with
      | ok r' =>
          rw [hao] at h
          simp at h
          rw [← h]
          exact attemptOutcome_ok_reason hao
      | error e =>
          rw [hao] at h
          by_cases hf0 : f = 0
          · rw [if_pos hf0] at h
            exact absurd h (by simp)
          · rw [if_neg hf0] at h
            exact ih (attempt + 1) r h

/-- C10.  A cached `None` is indistinguishable from an absent entry: when
the memory backend's stored value for the evaluation's cache key reads back
as `None` (absent, or a stored `None` — including one the pipeline itself
wrote back after a remote fetch whose `value` was `None`), the next single
evaluation takes the cache-miss branch (`cache_misses` + 1, `cache_hits`
unchanged, the cache-miss event fires first, and the result is not a
`CACHED` hit), a singleton batch evaluation of that key likewise counts a
miss, and a remote fetch that returns `None` writes back a stored `None`
that again reads back as `None`. -/
theorem c10_null_is_miss :
    ∀ (cfg : FlexFlagConfig) (net : Nat → NetResp) (latency_ms : ℚ)
      (st : ClientState (List (Str × FlagValue))) (flag_key : Str)
      (context : Option EvaluationContext) (default_value : FlagValue)
      (bnet : Except Unit (List (Str × FlagValue))) (body : JObj),
    (flagLookup (cfg.cache.key_pfx ++ buildCacheKey flag_key (context <|> st.context)
        cfg.environment) st.cacheState).getD .null = .null →
    ((evaluateWithDetails cfg (memoryCacheProvider cfg.cache.key_pfx) net latency_ms
        st flag_key context default_value).2.1.metrics.cache_misses =
      st.metrics.cache_misses + 1 ∧
     (evaluateWithDetails cfg (memoryCacheProvider cfg.cache.key_pfx) net latency_ms
        st flag_key context default_value).2.1.metrics.cache_hits =
      st.metrics.cache_hits ∧
     (evaluateWithDetails cfg (memoryCacheProvider cfg.cache.key_pfx) net latency_ms
        st flag_key context default_value).2.2.head? =
      some (.cacheMiss flag_key) ∧
     (evaluateWithDetails cfg (memoryCacheProvider cfg.cache.key_pfx) net latency_ms
        st flag_key context default_value).1.reason ≠ .CACHED) ∧
    ((evaluateBatch cfg (memoryCacheProvider cfg.cache.key_pfx) bnet st [flag_key]
        context).2.1.metrics.cache_misses = st.metrics.cache_misses + 1 ∧
     (evaluateBatch cfg (memoryCacheProvider cfg.cache.key_pfx) bnet st [flag_key]
        context).2.1.metrics.cache_hits = st.metrics.cache_hits) ∧
    (¬(st.offline_mode = true ∨ cfg.connection.mode = .offline) →
      1 ≤ cfg.connection.retry_attempts →
      net 0 = .resp 200 body →
      body.lookup "value".data = some .null →
      cfg.cache.enabled = true →
      flagLookup (cfg.cache.key_pfx ++ buildCacheKey flag_key (context <|> st.context)
          cfg.environment)
        (evaluateWithDetails cfg (memoryCacheProvider cfg.cache.key_pfx) net latency_ms
          st flag_key context default_value).2.1.cacheState = some .null) := by
  intro cfg net latency_ms st flag_key context default_value bnet body hnull
  have hget : (getFromCache cfg (memoryCacheProvider cfg.cache.key_pfx) st.cacheState
      (buildCacheKey flag_key (context <|> st.context) cfg.environment)).1 = .null :=
    getFromCache_mem_val cfg cfg.cache.key_pfx st.cacheState _ hnull
  have hst := getFromCache_mem_state cfg cfg.cache.key_pfx st.cacheState
    (buildCacheKey flag_key (context <|> st.context) cfg.environment)
  refine ⟨?_, ?_, ?_⟩
  · rw [evaluateWithDetails]
    simp only [hget, ne_eq, not_true_eq_false, if_false]
    by_cases hoff : st.offline_mode = true ∨ cfg.connection.mode = .offline
    · simp only [if_pos hoff]
      refine ⟨by simp, by simp, by simp, by simp [evaluateOffline]⟩
    · simp only [if_neg hoff]
      rcases hrem : evaluateRemote cfg.connection net default_value with ⟨res, a, sl⟩
      cases res with
      | ok r =>
          have hreason : r.reason = .TARGETING_MATCH ∨ r.reason = .DEFAULT := by
            have : (evaluateRemote cfg.connection net default_value).1 = .ok r := by
              rw [hrem]
            exact remoteLoop_ok_reason cfg.connection.retry_attempts 0 r this
          refine ⟨by simp [updateAverageLatency], by simp [updateAverageLatency],
            by simp, ?_⟩
          dsimp only
          rcases hreason with h | h <;> simp [h]
      | error e =>
          exact ⟨by simp, by simp, by simp, by simp [evaluateOffline]⟩
  · have hbp1 : batchPartition cfg (memoryCacheProvider cfg.cache.key_pfx)
        (context <|> st.context) [flag_key] st.cacheState st.metrics =
        ([], [flag_key], st.cacheState,
          { st.metrics with cache_misses := st.metrics.cache_misses + 1 },
          [.cacheMiss flag_key]) := by
      simp only [batchPartition, hget, hst, ne_eq, not_true_eq_false, if_false]
    simp only [evaluateBatch, hbp1]
    constructor
    · split
      · cases bnet with
        | ok rr => simp
        | error e => simp
      · simp
    · split
      · cases bnet with
        | ok rr => simp
        | error e => simp
      · simp
  · intro hoff hra hnet0 hbody henabled
    rw [evaluateWithDetails]
    simp only [hget, ne_eq, not_true_eq_false, if_false, if_neg hoff]
    have hrem : evaluateRemote cfg.connection net default_value =
        (.ok (remoteResultOf body default_value), 1, []) := by
      rw [evaluateRemote]
      rcases hfuel : cfg.connection.retry_attempts with _ | f
      · omega
      · rw [remoteLoop]
        have hao : attemptOutcome net default_value 0 =
            .ok (remoteResultOf body default_value) := by
          rw [attemptOutcome, hnet0]
          simp
        rw [hao]
    rw [hrem]
    have hval : (remoteResultOf body default_value).value = .null := by
      rw [remoteResultOf]
      simp [hbody]
    dsimp only
    rw [hval, hst]
    simp only [setCache, henabled, if_true, memoryCacheProvider]
    rw [flagLookup_dictInsert, if_pos rfl]

/-- Witness for C10: an explicitly stored `None` under the cache key of
flag `"f"` is treated as a miss by the next evaluation. -/
theorem c10_witness :
    (flagLookup (({} : FlexFlagConfig).cache.key_pfx ++
        buildCacheKey "f".data (none <|> none) ({} : FlexFlagConfig).environment)
        [("flexflag:f::production".data, JVal.null)]).getD .null = .null ∧
    (evaluateWithDetails {} (memoryCacheProvider ({} : FlexFlagConfig).cache.key_pfx)
        (fun _ => .exn) 0
        ⟨{}, [("flexflag:f::production".data, JVal.null)], false, none⟩
        "f".data none .null).2.1.metrics.cache_misses = 0 + 1 := by
  refine ⟨by decide, ?_⟩
  exact ((c10_null_is_miss {} (fun _ => .exn) 0
    ⟨{}, [("flexflag:f::production".data, JVal.null)], false, none⟩
    "f".data none .null (.error ()) .nil (by decide)).1).1

/-- The key order used by `json.dumps(sort_keys=True)`'s `sorted()`. -/
abbrev keyLe (p q : Str × JVal) : Prop := p.1 ≤ q.1

lemma JObj.toList_ofList : ∀ l : List (Str × JVal), (JObj.ofList l).toList = l
  | [] => rfl
  | (k, v) :: tl => by rw [JObj.ofList, JObj.toList, JObj.toList_ofList tl]

lemma canonO_toList : ∀ o : JObj,
    (canonO o).toList = o.toList.map (fun p => (p.1, canonV p.2))
  | .nil => rfl
  | .cons k v tl => by rw [canonO, JObj.toList, JObj.toList, List.map_cons, canonO_toList tl]

lemma keys_canonO_toList (o : JObj) :
    (canonO o).toList.map Prod.fst = o.toList.map Prod.fst := by
  rw [canonO_toList, List.map_map]
  exact List.map_congr_left (fun p _ => rfl)

/-- Sorting the fields of two dicts that are permutations of each other
(with no duplicate keys) yields the same list: the heart of sort-key
determinism. -/
lemma sortObj_perm_eq (o1 o2 : JObj) (hp : o1.toList.Perm o2.toList)
    (hn : (o1.toList.map Prod.fst).Nodup) : sortObj o1 = sortObj o2 := by
  haveI htot : IsTotal (Str × JVal) keyLe := ⟨fun a b => le_total a.1 b.1⟩
  haveI htrans : IsTrans (Str × JVal) keyLe := ⟨fun a b c hab hbc => le_trans hab hbc⟩
  haveI hanti : IsAntisymm (Str × JVal) (fun p q => p.1 < q.1) :=
    ⟨fun a b h1 h2 => absurd h2 (not_lt_of_lt h1)⟩
  have hs1 := List.sorted_insertionSort keyLe o1.toList
  have hs2 := List.sorted_insertionSort keyLe o2.toList
  have hp1 := List.perm_insertionSort keyLe o1.toList
  have hp2 := List.perm_insertionSort keyLe o2.toList
  have hperm : (List.insertionSort keyLe o1.toList).Perm
      (List.insertionSort keyLe o2.toList) :=
    hp1.trans (hp.trans hp2.symm)
  have hnodup1 : ((List.insertionSort keyLe o1.toList).map Prod.fst).Nodup :=
    (hp1.map Prod.fst).nodup_iff.2 hn
  have hnodup2 : ((List.insertionSort keyLe o2.toList).map Prod.fst).Nodup :=
    (hperm.symm.map Prod.fst).nodup_iff.2 hnodup1
  have hstrict : ∀ (l : List (Str × JVal)), List.Sorted keyLe l →
      (l.map Prod.fst).Nodup → List.Sorted (fun p q => p.1 < q.1) l := by
    intro l hsort hnd
    have hne : List.Pairwise (fun p q : Str × JVal => p.1 ≠ q.1) l :=
      List.pairwise_map.1 hnd
    exact (hsort.and hne).imp (fun h => lt_of_le_of_ne h.1 h.2)
  have heq : List.insertionSort keyLe o1.toList = List.insertionSort keyLe o2.toList :=
    List.eq_of_perm_of_sorted hperm
      (hstrict _ hs1 hnodup1) (hstrict _ hs2 hnodup2)
  rw [sortObj, sortObj]
  exact congrArg JObj.ofList heq

/-- Association-list lookup on the field list of a dict. -/
def pairsLookup (k : Str) : List (Str × JVal) → Option JVal
  | [] => none
  | (k', v) :: tl => if k = k' then some v else pairsLookup k tl

lemma JObj.lookup_eq_pairsLookup (k : Str) : ∀ o : JObj,
    JObj.lookup k o = pairsLookup k o.toList
  | .nil => rfl
  | .cons k' v tl => by
      rw [JObj.lookup, JObj.toList, pairsLookup, JObj.lookup_eq_pairsLookup k tl]

lemma pairsLookup_orderedInsert (k : Str) (p : Str × JVal) :
    ∀ l : List (Str × JVal),
      pairsLookup k (List.orderedInsert keyLe p l) =
        if k = p.1 then some p.2 else pairsLookup k l := by
  intro l
  induction l with
  | nil =>
      rcases p with ⟨kp, vp⟩
      rw [List.orderedInsert, pairsLookup]
      rfl
  | cons b tl ih =>
      rcases p with ⟨kp, vp⟩
      rcases b with ⟨kb, vb⟩
      rw [List.orderedInsert]
      by_cases hle : keyLe (kp, vp) (kb, vb)
      · rw [if_pos hle, pairsLookup]
      · rw [if_neg hle, pairsLookup, ih, pairsLookup]
        by_cases hkb : k = kb <;> by_cases hkp : k = kp
        · exact absurd (le_of_eq (show kp = kb by rw [← hkp, hkb])) hle
        · have hbp : ¬(kb = kp) := by rw [← hkb]; exact hkp
          simp [hkb, hkp, hbp]
        · have hpb : ¬(kp = kb) := fun h => hle (le_of_eq h)
          simp [hkb, hkp, hpb]
        · simp [hkb, hkp]

lemma pairsLookup_insertionSort (k : Str) :
    ∀ l : List (Str × JVal),
      pairsLookup k (List.insertionSort keyLe l) = pairsLookup k l := by
  intro l
  induction l with
  | nil => rfl
  | cons p tl ih =>
      rcases p with ⟨kp, vp⟩
      rw [List.insertionSort, pairsLookup_orderedInsert, pairsLookup, ih]

lemma sortObj_lookup (k : Str) (o : JObj) :
    JObj.lookup k (sortObj o) = JObj.lookup k o := by
  rw [JObj.lookup_eq_pairsLookup, sortObj, JObj.toList_ofList,
    pairsLookup_insertionSort, ← JObj.lookup_eq_pairsLookup]

lemma canonO_lookup (k : Str) : ∀ o : JObj,
    JObj.lookup k (canonO o) = (JObj.lookup k o).map canonV
  | .nil => rfl
  | .cons k' v tl => by
      rw [canonO, JObj.lookup, JObj.lookup, canonO_lookup k tl]
      by_cases hk : k = k'
      · rw [if_pos hk, if_pos hk]
        rfl
      · rw [if_neg hk, if_neg hk]

/-- A character that can continue a decimal number literal. -/
def NumChar (c : Char) : Prop := c.isDigit = true ∨ c = '-'

/-- A remainder string that cannot be confused with the continuation of a
number: empty, or starting with a non-number character (all remainders the
serializer produces start with `,`, `]`, `}`, `:` or are at end of input). -/
def NumSafe : Str → Prop
  | [] => True
  | c :: _ => ¬NumChar c

lemma append_eq_append_munch {P : Char → Prop} :
    ∀ (l1 l2 r1 r2 : Str), (∀ c ∈ l1, P c) → (∀ c ∈ l2, P c) →
      (∀ c cs, r1 = c :: cs → ¬P c) → (∀ c cs, r2 = c :: cs → ¬P c) →
      l1 ++ r1 = l2 ++ r2 → l1 = l2 ∧ r1 = r2 := by
  intro l1
  induction l1 with
  | nil =>
      intro l2 r1 r2 _ hl2 hr1 _ he
      cases l2 with
      | nil => exact ⟨rfl, he⟩
      | cons c tl =>
          rw [List.nil_append, List.cons_append] at he
          exact absurd (hl2 c (by simp)) (hr1 c (tl ++ r2) he)
  | cons c tl ih =>
      intro l2 r1 r2 hl1 hl2 hr1 hr2 he
      cases l2 with
      | nil =>
          rw [List.nil_append, List.cons_append] at he
          exact absurd (hl1 c (by simp)) (hr2 c (tl ++ r1) he.symm)
      | cons c' tl' =>
          rw [List.cons_append, List.cons_append] at he
          injection he with hc htl
          obtain ⟨h1, h2⟩ := ih tl' r1 r2 (fun x hx => hl1 x (by simp [hx]))
            (fun x hx => hl2 x (by simp [hx])) hr1 hr2 htl
          exact ⟨by rw [hc, h1], h2⟩

/-- The numeric value of a decimal digit character. -/
def digitVal (c : Char) : Nat := c.toNat - 48

/-- Decode a decimal digit string. -/
def decodeDigits (l : Str) : Nat := l.foldl (fun a c => a * 10 + digitVal c) 0

lemma digitCh_isDigit {d : Nat} (h : d < 10) : (digitCh d).isDigit = true := by
  interval_cases d <;> decide

lemma digitVal_digitCh {d : Nat} (h : d < 10) : digitVal (digitCh d) = d := by
  interval_cases d <;> decide

lemma natChars_all (n : Nat) : ∀ c ∈ natChars n, c.isDigit = true := by
  induction n using Nat.strong_induction_on with
  | _ n ih =>
      rw [natChars]
      split
      · intro c hc
        rw [List.mem_singleton] at hc
        rw [hc]
        exact digitCh_isDigit (by omega)
      · intro c hc
        rw [List.mem_append] at hc
        rcases hc with hc | hc
        · exact ih (n / 10) (Nat.div_lt_self (by omega) (by omega)) c hc
        · rw [List.mem_singleton] at hc
          rw [hc]
          exact digitCh_isDigit (Nat.mod_lt _ (by omega))

lemma natChars_ne_nil (n : Nat) : natChars n ≠ [] := by
  rw [natChars]
  split <;> simp

lemma decodeDigits_natChars (n : Nat) : decodeDigits (natChars n) = n := by
  induction n using Nat.strong_induction_on with
  | _ n ih =>
      rw [natChars]
      split
      · rename_i h
        simp [decodeDigits, digitVal_digitCh h]
      · rename_i h
        have ihd := ih (n / 10) (Nat.div_lt_self (by omega) (by omega))
        simp only [decodeDigits] at ihd ⊢
        rw [List.foldl_append]
        simp only [List.foldl_cons, List.foldl_nil]
        rw [ihd, digitVal_digitCh (Nat.mod_lt _ (by omega))]
        omega

lemma natChars_inj {n1 n2 : Nat} (h : natChars n1 = natChars n2) : n1 = n2 := by
  have h1 := decodeDigits_natChars n1
  rw [h, decodeDigits_natChars] at h1
  omega

lemma intChars_all (i : Int) : ∀ c ∈ intChars i, NumChar c := by
  rw [intChars]
  split
  · intro c hc
    rw [List.mem_cons] at hc
    rcases hc with hc | hc
    · right; exact hc
    · left; exact natChars_all _ c hc
  · intro c hc
    left; exact natChars_all _ c hc

lemma intChars_cons (i : Int) : ∃ c cs, intChars i = c :: cs ∧ NumChar c := by
  rw [intChars]
  split
  · exact ⟨'-', natChars i.natAbs, rfl, Or.inr rfl⟩
  · rcases hn : natChars i.natAbs with _ | ⟨c, cs⟩
    · exact absurd hn (natChars_ne_nil _)
    · refine ⟨c, cs, rfl, Or.inl ?_⟩
      exact natChars_all _ c (by rw [hn]; simp)

lemma intChars_inj {i1 i2 : Int} (h : intChars i1 = intChars i2) : i1 = i2 := by
  rw [intChars, intChars] at h
  by_cases h1 : i1 < 0 <;> by_cases h2 : i2 < 0
  · rw [if_pos h1, if_pos h2] at h
    injection h with _ h
    have := natChars_inj h
    omega
  · rw [if_pos h1, if_neg h2] at h
    rcases hn : natChars i2.natAbs with _ | ⟨c, cs⟩
    · exact absurd hn (natChars_ne_nil _)
    · rw [hn] at h
      injection h with hc _
      have := natChars_all i2.natAbs c (by rw [hn]; simp)
      rw [← hc] at this
      exact absurd this (by decide)
  · rw [if_neg h1, if_pos h2] at h
    rcases hn : natChars i1.natAbs with _ | ⟨c, cs⟩
    · exact absurd hn (natChars_ne_nil _)
    · rw [hn] at h
      injection h with hc _
      have := natChars_all i1.natAbs c (by rw [hn]; simp)
      rw [hc] at this
      exact absurd this (by decide)
  · rw [if_neg h1, if_neg h2] at h
    have := natChars_inj h
    omega

lemma intChars_munch {i1 i2 : Int} {r1 r2 : Str} (h1 : NumSafe r1) (h2 : NumSafe r2)
    (he : intChars i1 ++ r1 = intChars i2 ++ r2) : i1 = i2 ∧ r1 = r2 := by
  have hr1 : ∀ c cs, r1 = c :: cs → ¬NumChar c := by
    intro c cs hc
    rw [hc] at h1
    exact h1
  have hr2 : ∀ c cs, r2 = c :: cs → ¬NumChar c := by
    intro c cs hc
    rw [hc] at h2
    exact h2
  obtain ⟨hl, hr⟩ := append_eq_append_munch (intChars i1) (intChars i2) r1 r2
    (intChars_all i1) (intChars_all i2) hr1 hr2 he
  exact ⟨intChars_inj hl, hr⟩

lemma escChars_munch : ∀ (s1 s2 r1 r2 : Str),
    escChars s1 ++ '"' :: r1 = escChars s2 ++ '"' :: r2 → s1 = s2 ∧ r1 = r2 := by
  intro s1
  induction s1 with
  | nil =>
      intro s2 r1 r2 he
      cases s2 with
      | nil => simpa using he
      | cons c2 t2 =>
          simp only [escChars, escChar] at he
          by_cases hq : c2 = '"'
          · rw [if_pos hq] at he
            simp at he
          · rw [if_neg hq] at he
            by_cases hb : c2 = '\\'
            · rw [if_pos hb] at he
              simp at he
            · rw [if_neg hb] at he
              rw [List.nil_append, List.singleton_append, List.cons_append] at he
              injection he with hc _
              exact absurd hc.symm hq
  | cons c1 t1 ih =>
      intro s2 r1 r2 he
      cases s2 with
      | nil =>
          simp only [escChars, escChar] at he
          by_cases hq : c1 = '"'
          · rw [if_pos hq] at he
            simp at he
          · rw [if_neg hq] at he
            by_cases hb : c1 = '\\'
            · rw [if_pos hb] at he
              simp at he
            · rw [if_neg hb] at he
              rw [List.nil_append, List.singleton_append, List.cons_append] at he
              injection he with hc _
              exact absurd hc hq
      | cons c2 t2 =>
          simp only [escChars, escChar] at he
          by_cases hq1 : c1 = '"' <;> by_cases hq2 : c2 = '"'
          · rw [if_pos hq1, if_pos hq2] at he
            simp only [List.cons_append, List.nil_append] at he
            injection he with _ he
            injection he with _ he
            obtain ⟨h1, h2⟩ := ih t2 r1 r2 he
            exact ⟨by rw [hq1, hq2, h1], h2⟩
          · rw [if_pos hq1, if_neg hq2] at he
            by_cases hb2 : c2 = '\\'
            · rw [if_pos hb2] at he
              simp only [List.cons_append, List.nil_append] at he
              injection he with _ he
              injection he with hc _
              exact absurd hc.symm (by decide)
            · rw [if_neg hb2] at he
              simp only [List.cons_append, List.nil_append] at he
              injection he with hc _
              exact absurd hc (hb2 ∘ Eq.symm ∘ (fun h => h) ∘ fun h => h ▸ rfl)
          · rw [if_neg hq1, if_pos hq2] at he
            by_cases hb1 : c1 = '\\'
            · rw [if_pos hb1] at he
              simp only [List.cons_append, List.nil_append] at he
              injection he with _ he
              injection he with hc _
              exact absurd hc (by decide)
            · rw [if_neg hb1] at he
              simp only [List.cons_append, List.nil_append] at he
              injection he with hc _
              exact absurd hc hb1
          · rw [if_neg hq1, if_neg hq2] at he
            by_cases hb1 : c1 = '\\' <;> by_cases hb2 : c2 = '\\'
            · rw [if_pos hb1, if_pos hb2] at he
              simp only [List.cons_append, List.nil_append] at he
              injection he with _ he
              injection he with _ he
              obtain ⟨h1, h2⟩ := ih t2 r1 r2 he
              exact ⟨by rw [hb1, hb2, h1], h2⟩
            · rw [if_pos hb1, if_neg hb2] at he
              simp only [List.cons_append, List.nil_append] at he
              injection he with hc _
              exact absurd hc.symm hb2
            · rw [if_neg hb1, if_pos hb2] at he
              simp only [List.cons_append, List.nil_append] at he
              injection he with hc _
              exact absurd hc hb1
            · rw [if_neg hb1, if_neg hb2] at he
              simp only [List.cons_append, List.nil_append] at he
              injection he with hc he
              obtain ⟨h1, h2⟩ := ih t2 r1 r2 he
              exact ⟨by rw [hc, h1], h2⟩

/-- Constructor tag of a JSON value. -/
def ctorTag : JVal → Nat
  | .null => 0 | .bool _ => 1 | .num _ => 2 | .str _ => 3 | .arr _ => 4 | .obj _ => 5

/-- The class of first characters a serialized value can have, by
constructor. -/
def serHeadOK : JVal → Char → Prop
  | .null, c => c = 'n'
  | .bool true, c => c = 't'
  | .bool false, c => c = 'f'
  | .num _, c => NumChar c
  | .str _, c => c = '"'
  | .arr _, c => c = '['
  | .obj _, c => c = lbrace

lemma serV_cons (v : JVal) : ∃ c cs, serV v = c :: cs ∧ serHeadOK v c := by
  cases v with
  | null => exact ⟨'n', _, rfl, rfl⟩
  | bool b => cases b with
    | true => exact ⟨'t', _, rfl, rfl⟩
    | false => exact ⟨'f', _, rfl, rfl⟩
  | num i =>
      obtain ⟨c, cs, hic, hnc⟩ := intChars_cons i
      exact ⟨c, cs, hic, hnc⟩
  | str s => exact ⟨'"', escChars s ++ ['"'], rfl, rfl⟩
  | arr a => exact ⟨'[', serItems a ++ [']'], rfl, rfl⟩
  | obj o => exact ⟨lbrace, serFields o ++ [rbrace], rfl, rfl⟩

lemma serHead_tag {v1 v2 : JVal} {c : Char} (h1 : serHeadOK v1 c)
    (h2 : serHeadOK v2 c) : ctorTag v1 = ctorTag v2 := by
  rcases v1 with _ | b1 | i1 | s1 | a1 | o1 <;>
    rcases v2 with _ | b2 | i2 | s2 | a2 | o2 <;>
    try rfl
  all_goals try cases b1
  all_goals try cases b2
  all_goals simp only [serHeadOK] at h1 h2
  all_goals first
    | rfl
    | (subst h1; exact absurd h2 (by decide))
    | (subst h2; exact absurd h1 (by decide))
    | (subst h1; rcases h2 with h2 | h2 <;> exact absurd h2 (by decide))
    | (subst h2; rcases h1 with h1 | h1 <;> exact absurd h1 (by decide))

lemma serHead_not_delim {v : JVal} {c : Char} (h : serHeadOK v c) :
    ¬(c = ']' ∨ c = rbrace ∨ c = ',' ∨ c = ':') := by
  rcases v with _ | b | i | s | a | o
  · subst h; decide
  · cases b <;> (simp only [serHeadOK] at h; subst h; decide)
  · rcases h with h | h
    · intro hc
      rcases hc with hc | hc | hc | hc <;> (subst hc; exact absurd h (by decide))
    · subst h; decide
  · subst h; decide
  · subst h; decide
  · subst h; decide

lemma numSafe_rbrack (r : Str) : NumSafe (']' :: r) := by
  simp [NumSafe, NumChar]
lemma numSafe_rbrace (r : Str) : NumSafe (rbrace :: r) := by
  simp [NumSafe, NumChar, rbrace]
lemma numSafe_comma (r : Str) : NumSafe (',' :: r) := by
  simp [NumSafe, NumChar]

/-- What follows the first element of a serialized array: the closing
bracket, or the separator and the remaining elements. -/
def itemsRest (tl : JArr) (r : Str) : Str :=
  match tl with
  | .nil => ']' :: r
  | .cons w tl' => ',' :: ' ' :: (serItems (.cons w tl') ++ ']' :: r)

/-- What follows the first value of a serialized object. -/
def fieldsRest (tl : JObj) (r : Str) : Str :=
  match tl with
  | .nil => rbrace :: r
  | .cons k' w tl' => ',' :: ' ' :: (serFields (.cons k' w tl') ++ rbrace :: r)

lemma serItems_cons_append (v : JVal) (tl : JArr) (r : Str) :
    serItems (.cons v tl) ++ ']' :: r = serV v ++ itemsRest tl r := by
  cases tl with
  | nil => rw [serItems, itemsRest]
  | cons w tl' => rw [serItems, itemsRest]; simp [List.append_assoc]

lemma serFields_cons_append (k : Str) (v : JVal) (tl : JObj) (r : Str) :
    serFields (.cons k v tl) ++ rbrace :: r =
      '"' :: (escChars k ++ '"' :: (':' :: ' ' :: (serV v ++ fieldsRest tl r))) := by
  cases tl with
  | nil => rw [serFields, fieldsRest]; simp [serStr, List.append_assoc]
  | cons k' w tl' => rw [serFields, fieldsRest]; simp [serStr, List.append_assoc]

lemma numSafe_itemsRest (tl : JArr) (r : Str) : NumSafe (itemsRest tl r) := by
  cases tl with
  | nil => exact numSafe_rbrack r
  | cons w tl' => exact numSafe_comma _

lemma numSafe_fieldsRest (tl : JObj) (r : Str) : NumSafe (fieldsRest tl r) := by
  cases tl with
  | nil => exact numSafe_rbrace r
  | cons k' w tl' => exact numSafe_comma _

mutual

theorem serV_munch (v1 v2 : JVal) (r1 r2 : Str) (h1 : NumSafe r1) (h2 : NumSafe r2)
    (he : serV v1 ++ r1 = serV v2 ++ r2) : v1 = v2 ∧ r1 = r2 := by
  obtain ⟨c1, cs1, hs1, hok1⟩ := serV_cons v1
  obtain ⟨c2, cs2, hs2, hok2⟩ := serV_cons v2
  have hc : c1 = c2 := by
    have he' := he
    rw [hs1, hs2] at he'
    simp only [List.cons_append] at he'
    injection he'
  rw [hc] at hok1
  have htag := serHead_tag hok1 hok2
  clear hs1 hs2 hok1 hok2 hc
  rcases v1 with _ | b1 | i1 | s1 | a1 | o1 <;>
    rcases v2 with _ | b2 | i2 | s2 | a2 | o2 <;>
    try simp [ctorTag] at htag
  · exact ⟨rfl, by simpa [serV] using he⟩
  · cases b1 <;> cases b2
    · exact ⟨rfl, by simpa [serV] using he⟩
    · exfalso; simp [serV] at he
    · exfalso; simp [serV] at he
    · exact ⟨rfl, by simpa [serV] using he⟩
  · have he' : intChars i1 ++ r1 = intChars i2 ++ r2 := he
    obtain ⟨hi, hr⟩ := intChars_munch h1 h2 he'
    exact ⟨by rw [hi], hr⟩
  · have hnorm : ∀ (s : Str) (r : Str), serV (.str s) ++ r =
        '"' :: (escChars s ++ '"' :: r) := by
      intro s r
      show serStr s ++ r = _
      rw [serStr]
      simp [List.append_assoc]
    rw [hnorm, hnorm] at he
    injection he with _ he
    obtain ⟨hsv, hr⟩ := escChars_munch s1 s2 r1 r2 he
    exact ⟨by rw [hsv], hr⟩
  · have hnorm : ∀ (a : JArr) (r : Str), serV (.arr a) ++ r =
        '[' :: (serItems a ++ ']' :: r) := by
      intro a r
      rw [serV]
      simp [List.append_assoc]
    rw [hnorm, hnorm] at he
    injection he with _ he
    obtain ⟨ha, hr⟩ := serItems_munch a1 a2 r1 r2 he
    exact ⟨by rw [ha], hr⟩
  · have hnorm : ∀ (o : JObj) (r : Str), serV (.obj o) ++ r =
        lbrace :: (serFields o ++ rbrace :: r) := by
      intro o r
      rw [serV]
      simp [List.append_assoc]
    rw [hnorm, hnorm] at he
    injection he with _ he
    obtain ⟨ho, hr⟩ := serFields_munch o1 o2 r1 r2 he
    exact ⟨by rw [ho], hr⟩

theorem serItems_munch (a1 a2 : JArr) (r1 r2 : Str)
    (he : serItems a1 ++ ']' :: r1 = serItems a2 ++ ']' :: r2) :
    a1 = a2 ∧ r1 = r2 := by
  cases a1 with
  | nil =>
      cases a2 with
      | nil =>
          rw [serItems] at he
          simp only [List.nil_append] at he
          injection he with _ hr
          exact ⟨rfl, hr⟩
      | cons v2 tl2 =>
          exfalso
          obtain ⟨c, cs, hsc, hok⟩ := serV_cons v2
          rw [serItems_cons_append, hsc] at he
          rw [serItems] at he
          simp only [List.nil_append, List.cons_append] at he
          injection he with hc _
          exact serHead_not_delim hok (Or.inl hc.symm)
  | cons v1 tl1 =>
      cases a2 with
      | nil =>
          exfalso
          obtain ⟨c, cs, hsc, hok⟩ := serV_cons v1
          rw [serItems_cons_append, hsc] at he
          rw [serItems] at he
          simp only [List.nil_append, List.cons_append] at he
          injection he with hc _
          exact serHead_not_delim hok (Or.inl hc)
      | cons v2 tl2 =>
          rw [serItems_cons_append, serItems_cons_append] at he
          obtain ⟨hv, hX⟩ := serV_munch v1 v2 _ _ (numSafe_itemsRest tl1 r1)
            (numSafe_itemsRest tl2 r2) he
          cases tl1 with
          | nil =>
              cases tl2 with
              | nil =>
                  rw [itemsRest, itemsRest] at hX
                  injection hX with _ hr
                  exact ⟨by rw [hv], hr⟩
              | cons w2 tl2' =>
                  exfalso
                  rw [itemsRest, itemsRest] at hX
                  injection hX with hc _
                  exact absurd hc (by decide)
          | cons w1 tl1' =>
              cases tl2 with
              | nil =>
                  exfalso
                  rw [itemsRest, itemsRest] at hX
                  injection hX with hc _
                  exact absurd hc (by decide)
              | cons w2 tl2' =>
                  rw [itemsRest, itemsRest] at hX
                  injection hX with _ hX
                  injection hX with _ hX
                  obtain ⟨htl, hr⟩ := serItems_munch (.cons w1 tl1') (.cons w2 tl2')
                    r1 r2 hX
                  exact ⟨by rw [hv, htl], hr⟩

theorem serFields_munch (o1 o2 : JObj) (r1 r2 : Str)
    (he : serFields o1 ++ rbrace :: r1 = serFields o2 ++ rbrace :: r2) :
    o1 = o2 ∧ r1 = r2 := by
  cases o1 with
  | nil =>
      cases o2 with
      | nil =>
          rw [serFields] at he
          simp only [List.nil_append] at he
          injection he with _ hr
          exact ⟨rfl, hr⟩
      | cons k2 v2 tl2 =>
          exfalso
          rw [serFields_cons_append] at he
          rw [serFields] at he
          simp only [List.nil_append] at he
          injection he with hc _
          exact absurd hc (by decide)
  | cons k1 v1 tl1 =>
      cases o2 with
      | nil =>
          exfalso
          rw [serFields_cons_append] at he
          rw [serFields] at he
          simp only [List.nil_append] at he
          injection he with hc _
          exact absurd hc (by decide)
      | cons k2 v2 tl2 =>
          rw [serFields_cons_append, serFields_cons_append] at he
          injection he with _ he
          obtain ⟨hk, he2⟩ := escChars_munch k1 k2 _ _ he
          injection he2 with _ he2
          injection he2 with _ he2
          obtain ⟨hv, hX⟩ := serV_munch v1 v2 _ _ (numSafe_fieldsRest tl1 r1)
            (numSafe_fieldsRest tl2 r2) he2
          cases tl1 with
          | nil =>
              cases tl2 with
              | nil =>
                  rw [fieldsRest, fieldsRest] at hX
                  injection hX with _ hr
                  exact ⟨by rw [hk, hv], hr⟩
              | cons k2b w2 tl2b =>
                  exfalso
                  rw [fieldsRest, fieldsRest] at hX
                  injection hX with hc _
                  exact absurd hc (by decide)
          | cons k1b w1 tl1b =>
              cases tl2 with
              | nil =>
                  exfalso
                  rw [fieldsRest, fieldsRest] at hX
                  injection hX with hc _
                  exact absurd hc (by decide)
              | cons k2b w2 tl2b =>
                  rw [fieldsRest, fieldsRest] at hX
                  injection hX with _ hX
                  injection hX with _ hX
                  obtain ⟨htl, hr⟩ := serFields_munch (.cons k1b w1 tl1b)
                    (.cons k2b w2 tl2b) r1 r2 hX
                  exact ⟨by rw [hk, hv, htl], hr⟩

end

/-- The JSON printer is injective. -/
lemma serV_inj {v1 v2 : JVal} (h : serV v1 = serV v2) : v1 = v2 := by
  have he : serV v1 ++ [] = serV v2 ++ [] := by rw [List.append_nil, List.append_nil, h]
  exact (serV_munch v1 v2 [] [] trivial trivial he).1

/-- Dicts whose field lists are permutations (with unique keys) print the
same under `sort_keys=True`. -/
lemma canonV_obj_perm {o1 o2 : JObj} (hp : o1.toList.Perm o2.toList)
    (hn : (o1.toList.map Prod.fst).Nodup) :
    canonV (.obj o1) = canonV (.obj o2) := by
  rw [canonV, canonV]
  refine congrArg JVal.obj (sortObj_perm_eq (canonO o1) (canonO o2) ?_ ?_)
  · rw [canonO_toList, canonO_toList]
    exact hp.map _
  · rw [keys_canonO_toList]
    exact hn

lemma lookup_contextToDict_attributes (c : EvaluationContext) :
    JObj.lookup "attributes".data (contextToDict (some c)) = some (.obj c.attributes) := by
  rw [contextToDict, JObj.lookup, if_neg (by decide), JObj.lookup, if_pos rfl]

/-- C3.  Cache-key determinism and injectivity: (1) two contexts with the
same user id and the same attribute/device/session key–value sets — in any
insertion order, with unique keys — and the same flag key and environment
produce the same cache key; (2) two contexts that differ in the value of
some attribute key (all else equal) produce different cache keys. -/
theorem c3_cache_key_determinism_injectivity :
    (∀ (flag_key env : Str) (c1 c2 : EvaluationContext),
      c1.user_id = c2.user_id →
      c1.attributes.toList.Perm c2.attributes.toList →
      (c1.attributes.toList.map Prod.fst).Nodup →
      (c1.device.getD .nil).toList.Perm (c2.device.getD .nil).toList →
      ((c1.device.getD .nil).toList.map Prod.fst).Nodup →
      (c1.session.getD .nil).toList.Perm (c2.session.getD .nil).toList →
      ((c1.session.getD .nil).toList.map Prod.fst).Nodup →
      buildCacheKey flag_key (some c1) env = buildCacheKey flag_key (some c2) env) ∧
    (∀ (flag_key env : Str) (c1 c2 : EvaluationContext) (k : Str) (v1 v2 : JVal),
      c1.user_id = c2.user_id → c1.device = c2.device → c1.session = c2.session →
      JObj.lookup k c1.attributes = some v1 →
      JObj.lookup k c2.attributes = some v2 →
      canonV v1 ≠ canonV v2 →
      buildCacheKey flag_key (some c1) env ≠ buildCacheKey flag_key (some c2) env) := by
  constructor
  · intro flag_key env c1 c2 huid hap han hdp hdn hsp hsn
    have hattr := canonV_obj_perm hap han
    have hdev := canonV_obj_perm hdp hdn
    have hsess := canonV_obj_perm hsp hsn
    have hctx : canonO (contextToDict (some c1)) = canonO (contextToDict (some c2)) := by
      simp only [contextToDict, canonO]
      rw [huid, hattr, hdev, hsess]
    rw [buildCacheKey, buildCacheKey, dumps, dumps, canonV, canonV, hctx]
  · intro flag_key env c1 c2 k v1 v2 huid hdev hsess hk1 hk2 hne he
    rw [buildCacheKey, buildCacheKey, dumps, dumps] at he
    have hS : serV (canonV (.obj (contextToDict (some c1)))) =
        serV (canonV (.obj (contextToDict (some c2)))) := by
      have h1 := List.append_cancel_right he
      have h2 := List.append_cancel_right h1
      exact List.append_cancel_left h2
    have hcanon := serV_inj hS
    rw [canonV, canonV] at hcanon
    injection hcanon with hsort
    have hlook := congrArg (JObj.lookup "attributes".data) hsort
    rw [sortObj_lookup, sortObj_lookup, canonO_lookup, canonO_lookup,
      lookup_contextToDict_attributes, lookup_contextToDict_attributes] at hlook
    simp only [Option.map_some'] at hlook
    injection hlook with hattr
    rw [canonV, canonV] at hattr
    injection hattr with hattrs
    have hlk := congrArg (JObj.lookup k) hattrs
    rw [sortObj_lookup, sortObj_lookup, canonO_lookup, canonO_lookup, hk1, hk2] at hlk
    simp only [Option.map_some'] at hlk
    injection hlk with hv
    exact hne hv

/-- Witness for C3: permuted attribute dicts collide to the same key, and a
single changed attribute value separates the keys. -/
theorem c3_witness :
    (JObj.cons "a".data (.num 1) (.cons "b".data (.num 2) .nil)).toList.Perm
      (JObj.cons "b".data (.num 2) (.cons "a".data (.num 1) .nil)).toList ∧
    buildCacheKey "f".data
        (some ⟨some "u".data, .cons "a".data (.num 1) (.cons "b".data (.num 2) .nil),
          none, none⟩) "production".data =
      buildCacheKey "f".data
        (some ⟨some "u".data, .cons "b".data (.num 2) (.cons "a".data (.num 1) .nil),
          none, none⟩) "production".data ∧
    buildCacheKey "f".data
        (some ⟨some "u".data, .cons "a".data (.num 1) .nil, none, none⟩)
        "production".data ≠
      buildCacheKey "f".data
        (some ⟨some "u".data, .cons "a".data (.num 2) .nil, none, none⟩)
        "production".data := by
  refine ⟨by decide, ?_, ?_⟩
  · exact c3_cache_key_determinism_injectivity.1 "f".data "production".data
      ⟨some "u".data, .cons "a".data (.num 1) (.cons "b".data (.num 2) .nil), none, none⟩
      ⟨some "u".data, .cons "b".data (.num 2) (.cons "a".data (.num 1) .nil), none, none⟩
      rfl (by decide) (by decide) (by decide) (by decide) (by decide) (by decide)
  · exact c3_cache_key_determinism_injectivity.2 "f".data "production".data
      ⟨some "u".data, .cons "a".data (.num 1) .nil, none, none⟩
      ⟨some "u".data, .cons "a".data (.num 2) .nil, none, none⟩
      "a".data (.num 1) (.num 2) rfl rfl rfl (by decide) (by decide) (by decide)

end FlexFlag

